import Mathlib

/-!
# RRI framing (`rri.c`): `RRI_Read` and `RRI_Send`

A shallow embedding of the two procedures of `src/rri.c` and of the environment they call
(`SSL_read`, `SSL_write`, `malloc`, `free`, `SetError`, `strlen`, `htonl`, `ntohl`).

Conventions of the embedding

* A byte is a `Fin 256`.  A C `int` is 32 bits wide, two's complement: a value of type `int`
  is an `Int` in `[-2^31, 2^31)`, and every conversion to `int` and every `int` addition goes
  through `toInt` (reduction modulo `2^32`).  `size_t` is 64 bits wide (`toSizeT`).
* The variable `nl` is represented by its four bytes in memory.  `htonl x` leaves in memory the
  big-endian bytes of `x`, and `ntohl` reads the four bytes in memory as a big-endian number,
  whatever the byte order of the host.
* The process state is a `World`: the bytes pending on the stream, the bytes put on the wire,
  three schedules that say how the coming calls of `SSL_read`, `SSL_write` and `malloc` behave
  (the empty schedule: every call does all it is asked), and the trace of the calls made.
* `none` as the result of `RRI_Send` means that the C program has no defined behaviour there
  (a `strlen` that runs off its object).  `RRI_Read` always gives a result: a store that falls
  outside the allocated block leaves the block as it is and is put on record in the trace.
-/

namespace RRI

/-! ## Machine integers and bytes -/

/-- A byte of memory or of the stream. -/
abbrev Byte := Fin 256

/-- Reduction of an integer to a C `int` (32 bits, two's complement): the residue modulo
`2^32`, read as negative from `2^31` on. -/
def toInt (x : Int) : Int :=
  if (x % 4294967296).toNat < 2147483648 then ((x % 4294967296).toNat : Int)
  else ((x % 4294967296).toNat : Int) - 4294967296

/-- Conversion of a C `int` to `uint32_t`. -/
def toUInt32 (x : Int) : Nat := (x % 4294967296).toNat

/-- Conversion of a C `int` to `size_t` (64 bits). -/
def toSizeT (x : Int) : Nat := (x % 18446744073709551616).toNat

/-- The low eight bits of a number, as a byte. -/
def byteOf (n : Nat) : Byte := ⟨n % 256, Nat.mod_lt _ (by decide)⟩

/-- Bytes in memory of `htonl x`: the big-endian representation of the 32-bit value `x`. -/
def htonl (x : Nat) : List Byte :=
  [byteOf (x / 16777216), byteOf (x / 65536), byteOf (x / 256), byteOf x]

/-- Value of `ntohl nl` for the four bytes `nl` in memory: they are read as big-endian. -/
def ntohl (nl : List Byte) : Nat :=
  16777216 * (nl.getD 0 0).val + 65536 * (nl.getD 1 0).val + 256 * (nl.getD 2 0).val
    + (nl.getD 3 0).val

/-- Number of bytes before the first zero byte of the object `s`; `none` when the object holds
no zero byte (the scan leaves the object). -/
def strlen : List Byte → Option Nat
  | [] => none
  | b :: rest => if b = 0 then some 0 else (strlen rest).map (· + 1)

/-! ## The process state -/

/-- What the transport does at one call of `SSL_read` or `SSL_write`. -/
inductive IOStep
  /-- the call transfers at most `cap` bytes -/
  | upTo (cap : Nat)
  /-- the call fails and transfers nothing -/
  | fail
  deriving DecidableEq, Repr

/-- One call to the environment, or one store outside a block. -/
inductive Event
  | sslRead (num ret : Int)
  | sslWrite (num ret : Int)
  | malloc (request : Nat) (ptr : Option Nat)
  | free (ptr : Nat)
  | setError (code : Int)
  /-- not a call: a store at `index`, outside the block at `ptr` -/
  | storeOutside (ptr : Nat) (index : Int)
  deriving DecidableEq, Repr

/-- The state of the process and of its end of the stream. -/
structure World where
  /-- bytes sent by the peer and not yet read -/
  inbound : List Byte
  /-- bytes written to the stream so far, oldest first -/
  outbound : List Byte
  /-- behaviour of the coming `SSL_read` calls; empty: no limit -/
  readSched : List IOStep
  /-- behaviour of the coming `SSL_write` calls; empty: no limit -/
  writeSched : List IOStep
  /-- outcome of the coming `malloc` calls (`false`: the call returns `NULL`); empty: success -/
  allocSched : List Bool
  /-- address given to the next block allocated -/
  nextPtr : Nat
  /-- calls made so far (and stores outside a block), oldest first -/
  trace : List Event
  deriving DecidableEq, Repr

/-- A block returned by `malloc`: its address and its cells (`none`: not written yet). -/
structure Block where
  ptr : Nat
  cells : List (Option Byte)
  deriving DecidableEq, Repr

/-- Number of bytes the transport grants to a call asking for `n` bytes (`none`: the call
fails), with the schedule left for the calls after it. -/
def grant (sched : List IOStep) (n : Nat) : Option Nat × List IOStep :=
  match sched with
  | [] => (some n, [])
  | IOStep.upTo cap :: rest => (some (min n cap), rest)
  | IOStep.fail :: rest => (none, rest)

/-- What a call of `SSL_read` gives: the value returned, the bytes stored at `buf` and the
new state. -/
structure ReadOut where
  ret : Int
  data : List Byte
  world : World
  deriving DecidableEq, Repr

/-- Environment: `SSL_read(ssl, buf, num)`.  A negative `num` is refused with `-1`; a failing
call returns `-1`; otherwise the call delivers the bytes granted that are pending, and returns
their number. -/
def SSL_read (w : World) (num : Int) : ReadOut :=
  if num < 0 then
    ⟨-1, [], { w with trace := w.trace ++ [Event.sslRead num (-1)] }⟩
  else
    match grant w.readSched num.toNat with
    | (none, rest) =>
        ⟨-1, [], { w with readSched := rest, trace := w.trace ++ [Event.sslRead num (-1)] }⟩
    | (some k, rest) =>
        let data := w.inbound.take k
        ⟨(data.length : Int), data,
          { w with inbound := w.inbound.drop k, readSched := rest,
                   trace := w.trace ++ [Event.sslRead num (data.length : Int)] }⟩

/-- Environment: `SSL_write(ssl, buf, num)`, where `mem` is the object `buf` points into.
Returns the value returned and the new state.  A negative `num` is refused with `-1`; a
failing call returns `-1`; otherwise the bytes granted are appended to the wire. -/
def SSL_write (w : World) (mem : List Byte) (num : Int) : Int × World :=
  if num < 0 then
    (-1, { w with trace := w.trace ++ [Event.sslWrite num (-1)] })
  else
    match grant w.writeSched num.toNat with
    | (none, rest) =>
        (-1, { w with writeSched := rest, trace := w.trace ++ [Event.sslWrite num (-1)] })
    | (some k, rest) =>
        let data := mem.take k
        ((data.length : Int),
          { w with outbound := w.outbound ++ data, writeSched := rest,
                   trace := w.trace ++ [Event.sslWrite num (data.length : Int)] })

/-- Environment: `malloc(request)`.  `none` is `NULL`. -/
def malloc (w : World) (request : Nat) : Option Block × World :=
  match w.allocSched with
  | false :: rest =>
      (none, { w with allocSched := rest, trace := w.trace ++ [Event.malloc request none] })
  | sched =>
      (some ⟨w.nextPtr, List.replicate request none⟩,
        { w with allocSched := sched.tail, nextPtr := w.nextPtr + 1,
                 trace := w.trace ++ [Event.malloc request (some w.nextPtr)] })

/-- Environment: `free(buf)`. -/
def free (w : World) (b : Block) : World :=
  { w with trace := w.trace ++ [Event.free b.ptr] }

/-- Environment: `SetError(code)`. -/
def SetError (w : World) (code : Int) : World :=
  { w with trace := w.trace ++ [Event.setError code] }

/-- Bytes `data` stored at the start of the object `mem`. -/
def storeAt {α : Type} (mem data : List α) : List α :=
  data ++ mem.drop data.length

/-- A store at the index `i`, outside the block `b`: the bytes of the block stay as they are
(the byte written lies next to the block), and the store is put on record. -/
def storeOutside (w : World) (b : Block) (i : Int) : World :=
  { w with trace := w.trace ++ [Event.storeOutside b.ptr i] }

/-- The store `buf[i] = v`; `none` when the index is outside the block. -/
def Block.setByte (b : Block) (i : Int) (v : Byte) : Option Block :=
  if 0 ≤ i ∧ i.toNat < b.cells.length then
    some { b with cells := b.cells.set i.toNat (some v) }
  else none

/-! ## The two procedures of `rri.c` -/

/-- What `RRI_Read` hands back: the value returned and `*result` (`none`: `NULL`). -/
structure ReadResult where
  ret : Int
  result : Option Block
  deriving DecidableEq, Repr

/-- Procedure `int RRI_Read(SSL *ssl, char **result)`. -/
def RRI_Read (w : World) : Option (ReadResult × World) :=
  -- *result=NULL; int nl=0; int size=0;
  let nl0 : List Byte := [0, 0, 0, 0]
  -- s=SSL_read(ssl,(char*)&nl,4);
  let r1 := SSL_read w 4
  let nl := storeAt nl0 r1.data
  if r1.ret ≠ 4 then
    some (⟨0, none⟩, r1.world)
  else
    -- size=ntohl(nl);
    let size : Int := toInt (ntohl nl)
    -- char *buf=(char*)malloc(size+2);
    let m := malloc r1.world (toSizeT (toInt (size + 2)))
    match m.1 with
    | none => some (⟨0, none⟩, m.2)
    | some buf =>
        -- s=SSL_read(ssl,buf,size);
        let r2 := SSL_read m.2 size
        let buf1 : Block := { buf with cells := storeAt buf.cells (r2.data.map some) }
        if r2.ret ≠ size then
          some (⟨0, none⟩, free r2.world buf1)
        else
          -- buf[size]=0; *result=buf; SetError(0); return size;
          match buf1.setByte size 0 with
          | none => some (⟨size, some buf1⟩, SetError (storeOutside r2.world buf1 size) 0)
          | some buf2 => some (⟨size, some buf2⟩, SetError r2.world 0)

/-- Procedure `int RRI_Send(SSL *ssl, const char *order)`; `order` is the object the pointer
points into. -/
def RRI_Send (w : World) (order : List Byte) : Option (Int × World) :=
  -- int size=(int)strlen(order);
  match strlen order with
  | none => none
  | some len =>
      let size : Int := toInt len
      -- int nl=htonl(size);
      let nl : List Byte := htonl (toUInt32 size)
      -- s=SSL_write(ssl,(char*)&nl,4);
      let r1 := SSL_write w nl 4
      if r1.1 ≠ 4 then
        some (0, r1.2)
      else
        -- s=SSL_write(ssl,order,size);
        let r2 := SSL_write r1.2 order size
        if r2.1 ≠ size then
          some (0, r2.2)
        else
          some (r2.1, r2.2)

/-! ## Vocabulary of the statements -/

/-- A state in which nothing is pending, nothing has been written and no call is limited. -/
def idle : World :=
  { inbound := [], outbound := [], readSched := [], writeSched := [], allocSched := [],
    nextPtr := 0, trace := [] }

/-- Bytes put on the wire between the states `w` and `w'`. -/
def sentBy (w w' : World) : List Byte := w'.outbound.drop w.outbound.length

/-- The end `p` of a stream after the bytes `bytes` have arrived on it. -/
def receive (p : World) (bytes : List Byte) : World :=
  { p with inbound := p.inbound ++ bytes }

/-- The next call on a schedule transfers `n` bytes in full. -/
def permits (sched : List IOStep) (n : Nat) : Bool :=
  match sched with
  | [] => true
  | IOStep.upTo cap :: _ => decide (n ≤ cap)
  | IOStep.fail :: _ => false

/-- The next `malloc` on a schedule succeeds. -/
def allocates (sched : List Bool) : Bool :=
  match sched with
  | false :: _ => false
  | _ => true


/-- Value of `size` in `RRI_Read` once the prefix has been read in the state `w`. -/
def declaredSize (w : World) : Int :=
  toInt (ntohl (storeAt [0, 0, 0, 0] (SSL_read w 4).data))

/-- Result of the `malloc` call of `RRI_Read` started in the state `w`. -/
def allocStep (w : World) : Option Block × World :=
  malloc (SSL_read w 4).world (toSizeT (toInt (declaredSize w + 2)))

/-- Result of the second `SSL_read` call of `RRI_Read` started in the state `w`. -/
def payloadRead (w : World) : ReadOut :=
  SSL_read (allocStep w).2 (declaredSize w)

/-- Result of the first `SSL_write` call of `RRI_Send` for an order of `len` bytes. -/
def prefixWrite (w : World) (len : Nat) : Int × World :=
  SSL_write w (htonl (toUInt32 (toInt len))) 4

/-- Result of the second `SSL_write` call of `RRI_Send` for the order `order` of `len` bytes. -/
def payloadWrite (w : World) (order : List Byte) (len : Nat) : Int × World :=
  SSL_write (prefixWrite w len).2 order (toInt len)

/-- Both `SSL_write` calls of `RRI_Send` return the count they were asked for: the procedure
reaches its last `return`. -/
def SendSucceeds (w : World) (order : List Byte) : Prop :=
  ∃ len, strlen order = some len ∧ (prefixWrite w len).1 = 4 ∧
    (payloadWrite w order len).1 = toInt len

/-- The order whose bytes are `s`, as `RRI_Send` takes it: `s`, the terminating zero, and
whatever lies in memory after it. -/
def cstring (s after : List Byte) : List Byte := s ++ 0 :: after

/-- Round trip of C1: `RRI_Send` of the order `s` in the state `w`, then `RRI_Read` on the end
`p` where the bytes sent arrive, returns the length of `s` and a block that holds `s` and a
zero after it. -/
def RoundTrip (w p : World) (s after : List Byte) : Prop :=
  ∃ r w' buf p', RRI_Send w (cstring s after) = some (r, w') ∧
    RRI_Read (receive p (sentBy w w')) = some (⟨(s.length : Int), some buf⟩, p') ∧
    buf.cells.take s.length = s.map some ∧ buf.cells.get? s.length = some (some 0)

/-- Claim C2 for the order `s`: when `RRI_Send` succeeds it has put on the wire exactly
`4 + L` bytes, the big-endian encoding of the length `L` of `s` and then `s`. -/
def SendWritesFrame (w : World) (s after : List Byte) : Prop :=
  SendSucceeds w (cstring s after) →
    ∃ r w', RRI_Send w (cstring s after) = some (r, w') ∧
      (sentBy w w').length = 4 + s.length ∧ sentBy w w' = htonl s.length ++ s

/-- Claim C3 for a frame of declared length `L` and payload `payload`: `RRI_Read` returns `L`
and a block whose first `L` bytes are the payload and whose byte at offset `L` is zero. -/
def ReadsFrame (w : World) (L : Nat) (payload : List Byte) : Prop :=
  ∃ buf w', RRI_Read w = some (⟨(L : Int), some buf⟩, w') ∧
    buf.cells.take L = payload.map some ∧ buf.cells.get? L = some (some 0)

/-- Claim C4 for a prefix that encodes `L`: the length `RRI_Read` works with (`size`) and the
value it returns are both `L`. -/
def ReadsLength (w : World) (L : Nat) : Prop :=
  ∃ res w', RRI_Read w = some (res, w') ∧ declaredSize w = (L : Int) ∧ res.ret = (L : Int)

/-- Claim C9 for an order of `len` bytes: when `RRI_Send` succeeds it returns `len`, and `len`
payload bytes follow the four prefix bytes on the wire. -/
def SendReturnsLength (w : World) (order : List Byte) (len : Nat) : Prop :=
  SendSucceeds w order →
    ∃ w', RRI_Send w order = some ((len : Int), w') ∧ (sentBy w w').length = 4 + len

/-- The bytes of `"hello"`. -/
def hello : List Byte := [104, 101, 108, 108, 111]

/-- An order of `n` bytes `'a'`. -/
def letters (n : Nat) : List Byte := List.replicate n 97

/-- Calls made between the states `w` and `w'`, oldest first. -/
def callsMade (w w' : World) : List Event := w'.trace.drop w.trace.length

/-- The codes passed to `SetError` in a list of calls. -/
def setErrorCalls (es : List Event) : List Int :=
  es.filterMap fun e =>
    match e with
    | Event.setError code => some code
    | _ => none

/-- The length that the prefix read in the state `w` declares: its four bytes as the unsigned
32-bit number they encode. -/
def declaredLength (w : World) : Nat :=
  ntohl (storeAt [0, 0, 0, 0] (SSL_read w 4).data)

/-- A read that was to obtain `n` bytes has come short: the call failed, or it stored fewer
than `n` bytes. -/
def comesShort (r : ReadOut) (n : Nat) : Prop := r.ret < 0 ∨ r.data.length < n

/-- The read of a frame fails: the prefix read comes short of four bytes, or `malloc` returns
`NULL`, or the payload read comes short of the length that the prefix declares. -/
def ReadFailed (w : World) : Prop :=
  comesShort (SSL_read w 4) 4 ∨ (allocStep w).1 = none ∨
    comesShort (payloadRead w) (declaredLength w)

/-- Claim C12 with `n` for the size: `RRI_Read` returns a block of `n` bytes that it has
asked `malloc` for with the size `n`. -/
def AllocatesExactly (w : World) (n : Nat) : Prop :=
  ∃ ret buf w', RRI_Read w = some (⟨ret, some buf⟩, w') ∧ buf.cells.length = n ∧
    Event.malloc n (some buf.ptr) ∈ callsMade w w'

/-- Orders sent one after the other with `RRI_Send`; `none` when a call has no defined
behaviour. -/
def sendAll (w : World) : List (List Byte) → Option World
  | [] => some w
  | order :: rest =>
      match RRI_Send w order with
      | none => none
      | some r => sendAll r.2 rest

/-- The results of `n` consecutive calls of `RRI_Read`, first call first, and the state after
them. -/
def readAll (p : World) : Nat → Option (List ReadResult × World)
  | 0 => some ([], p)
  | n + 1 =>
      match RRI_Read p with
      | none => none
      | some r =>
          match readAll r.2 n with
          | none => none
          | some rs => some (r.1 :: rs.1, rs.2)

/-- The result `res` of `RRI_Read` gives back the order `s`: its length, and a block that
holds the bytes of `s` and a zero after them. -/
def Returns (res : ReadResult) (s : List Byte) : Prop :=
  res.ret = (s.length : Int) ∧
    ∃ buf, res.result = some buf ∧ buf.cells.take s.length = s.map some ∧
      buf.cells.get? s.length = some (some 0)

/-- Claim C14 for the orders `ss`: sent back-to-back from the state `w`, they are returned one
per call, in the order sent, by as many calls of `RRI_Read` on the end `p` where they
arrive. -/
def BackToBack (w p : World) (ss : List (List Byte)) : Prop :=
  ∃ w' results p', sendAll w (ss.map fun s => cstring s []) = some w' ∧
    readAll (receive p (sentBy w w')) ss.length = some (results, p') ∧
    List.Forall₂ Returns results ss

/-- Every coming call on the schedule is granted in full, whatever `int` count it asks. -/
def grantsAll (sched : List IOStep) : Bool :=
  sched.all fun st =>
    match st with
    | IOStep.upTo cap => decide (2147483647 ≤ cap)
    | IOStep.fail => false

/-- Every coming `malloc` on the schedule succeeds. -/
def allocatesAll (sched : List Bool) : Bool := sched.all fun b => b

/-- The bytes on the wire of the frames of the orders `ss`, one after the other. -/
def frames : List (List Byte) → List Byte
  | [] => []
  | s :: rest => htonl s.length ++ (s ++ frames rest)

/-- Claim C16 for an order of `len` bytes: `RRI_Send` returns `0` exactly when a write did not
return the count asked or the order is empty, and otherwise returns `len`, which is
positive. -/
def SendReturnProfile (w : World) (order : List Byte) (len : Nat) : Prop :=
  ∃ r w', RRI_Send w order = some (r, w') ∧
    (r = 0 ↔ (¬ SendSucceeds w order ∨ len = 0)) ∧ (r ≠ 0 → r = (len : Int) ∧ 0 < r)

/-- Claim C17 for a frame of declared length `L` whose payload `payload` holds a zero byte:
`RRI_Read` accepts it on the end `p` and returns the payload in full, and no call of
`RRI_Send` puts it on the wire. -/
def ZeroFrameAsymmetry (p : World) (L : Nat) (payload : List Byte) : Prop :=
  ReadsFrame p L payload ∧
    ∀ (w : World) (order : List Byte) (r : Int) (w' : World),
      RRI_Send w order = some (r, w') → sentBy w w' ≠ htonl L ++ payload

/-- Claim C8 for an order of `len` bytes: when the prefix write has put its four bytes on the
wire and the payload write has put fewer than `len` bytes on it, `RRI_Send` returns `0`, and
the wire holds the whole prefix of `len` followed by that part of the payload. -/
def ShortPayloadWriteFails (w : World) (order : List Byte) (len : Nat) : Prop :=
  (sentBy w (prefixWrite w len).2).length = 4 →
    (sentBy (prefixWrite w len).2 (payloadWrite w order len).2).length < len →
    ∃ w' part, RRI_Send w order = some (0, w') ∧ sentBy w w' = htonl len ++ part ∧
      part <+: order ∧ part.length < len

/-! ## Lemmas -/

theorem toInt_of_lt (x : Int) (h0 : 0 ≤ x) (h1 : x < 2147483648) : toInt x = x := by
  unfold toInt; omega

theorem toUInt32_of_lt (x : Int) (h0 : 0 ≤ x) (h1 : x < 4294967296) :
    toUInt32 x = x.toNat := by
  unfold toUInt32; omega

theorem ntohl_htonl (x : Nat) (h : x < 4294967296) : ntohl (htonl x) = x := by
  simp [ntohl, htonl, byteOf]
  omega

theorem htonl_length (x : Nat) : (htonl x).length = 4 := rfl

theorem strlen_append_zero (s rest : List Byte) (hs : ∀ b ∈ s, b ≠ 0) :
    strlen (s ++ 0 :: rest) = some s.length := by
  induction s with
  | nil => simp [strlen]
  | cons b t ih =>
      have hb : b ≠ 0 := hs b (List.mem_cons_self _ _)
      have ht : ∀ c ∈ t, c ≠ 0 := fun c hc => hs c (List.mem_cons_of_mem _ hc)
      simp [strlen, hb, ih ht]

theorem strlen_lt_length (order : List Byte) (len : Nat) (h : strlen order = some len) :
    len < order.length := by
  induction order generalizing len with
  | nil => simp [strlen] at h
  | cons b t ih =>
      unfold strlen at h
      split at h
      · simp at h; subst h; simp
      · cases ht : strlen t with
        | none => simp [ht] at h
        | some k =>
            simp [ht] at h
            subst h
            have := ih k ht
            simp; omega

theorem strlen_take_nonzero (order : List Byte) (len : Nat) (h : strlen order = some len) :
    ∀ b ∈ order.take len, b ≠ 0 := by
  induction order generalizing len with
  | nil => simp [strlen] at h
  | cons b t ih =>
      unfold strlen at h
      split at h
      · simp at h; subst h; simp
      · rename_i hb
        cases ht : strlen t with
        | none => simp [ht] at h
        | some k =>
            simp [ht] at h
            subst h
            intro c hc
            simp [List.take_succ_cons] at hc
            rcases hc with hc | hc
            · subst hc; exact hb
            · exact ih k ht c hc

theorem grant_of_permits (sched : List IOStep) (n : Nat) (h : permits sched n = true) :
    grant sched n = (some n, sched.tail) := by
  cases sched with
  | nil => rfl
  | cons st rest =>
      cases st with
      | upTo cap =>
          simp [permits] at h
          simp [grant, Nat.min_eq_left h]
      | fail => simp [permits] at h


/-! ## The environment calls -/

theorem grant_le (sched : List IOStep) (n k : Nat) (rest : List IOStep)
    (h : grant sched n = (some k, rest)) : k ≤ n := by
  cases sched with
  | nil =>
      simp only [grant, Prod.mk.injEq, Option.some.injEq] at h
      omega
  | cons st tl =>
      cases st with
      | upTo cap =>
          simp only [grant, Prod.mk.injEq, Option.some.injEq] at h
          omega
      | fail => simp [grant] at h

theorem SSL_write_full (w : World) (mem : List Byte) (n : Nat)
    (hp : permits w.writeSched n = true) (hn : n ≤ mem.length) :
    SSL_write w mem (n : Int) =
      ((n : Int), { w with outbound := w.outbound ++ mem.take n, writeSched := w.writeSched.tail,
                           trace := w.trace ++ [Event.sslWrite n n] }) := by
  have hlen : (mem.take n).length = n := by simp [List.length_take, hn]
  simp [SSL_write, grant_of_permits _ _ hp, hlen]

theorem SSL_read_full (w : World) (n : Nat)
    (hp : permits w.readSched n = true) (hn : n ≤ w.inbound.length) :
    SSL_read w (n : Int) =
      ⟨(n : Int), w.inbound.take n,
        { w with inbound := w.inbound.drop n, readSched := w.readSched.tail,
                 trace := w.trace ++ [Event.sslRead n n] }⟩ := by
  have hlen : (w.inbound.take n).length = n := by simp [List.length_take, hn]
  simp [SSL_read, grant_of_permits _ _ hp, hlen]

theorem malloc_of_allocates (w : World) (request : Nat) (h : allocates w.allocSched = true) :
    malloc w request =
      (some ⟨w.nextPtr, List.replicate request none⟩,
        { w with allocSched := w.allocSched.tail, nextPtr := w.nextPtr + 1,
                 trace := w.trace ++ [Event.malloc request (some w.nextPtr)] }) := by
  unfold malloc
  split
  · rename_i rest heq
    simp [heq, allocates] at h
  · rfl

/-- When both writes are granted in full, `RRI_Send` returns `(int)strlen(order)`, provided
that value is not negative, and has put the prefix and that many bytes of `order` on the
wire. -/
theorem RRI_Send_full (w : World) (order : List Byte) (len k : Nat)
    (hlen : strlen order = some len) (hk : toInt len = (k : Int))
    (hw1 : permits w.writeSched 4 = true) (hw2 : permits w.writeSched.tail k = true) :
    RRI_Send w order =
      some ((k : Int),
        { w with outbound := w.outbound ++ htonl k ++ order.take k,
                 writeSched := w.writeSched.tail.tail,
                 trace := w.trace ++ [Event.sslWrite 4 4, Event.sslWrite k k] }) := by
  have hkl : k ≤ order.length := by
    have h1 := strlen_lt_length order len hlen
    have h2 : (k : Int) ≤ len := by rw [← hk]; unfold toInt; omega
    omega
  have hk32 : toUInt32 (k : Int) = k := by
    have : (k : Int) < 2147483648 := by rw [← hk]; unfold toInt; omega
    unfold toUInt32; omega
  have h4 := SSL_write_full w (htonl k) 4 hw1 (by simp [htonl_length])
  have h4take : (htonl k).take 4 = htonl k := by simp [htonl]
  rw [h4take] at h4
  have h4c : ((4 : Nat) : Int) = 4 := rfl
  rw [h4c] at h4
  simp only [RRI_Send, hlen, hk, hk32, h4, ne_eq, not_true_eq_false, ↓reduceIte]
  rw [SSL_write_full _ order k hw2 hkl]
  simp [List.append_assoc]

theorem request_gt (L : Nat) (hL : L ≤ 2147483647) :
    L < toSizeT (toInt ((L : Int) + 2)) := by
  unfold toSizeT toInt; omega

theorem storeAt_set_take {α : Type} (mem data : List α) (v : α) :
    ((storeAt mem data).set data.length v).take data.length = data := by
  simp [storeAt, List.set_append_right]

theorem storeAt_set_get {α : Type} (mem data : List α) (v : α) (h : data.length < mem.length) :
    ((storeAt mem data).set data.length v).get? data.length = some v := by
  have hlen : data.length < (storeAt mem data).length := by
    simp [storeAt]; omega
  simp [List.getElem?_set, hlen]

/-- When a whole frame of at most `2^31 - 1` payload bytes is pending, both reads are granted
in full and the allocation succeeds, `RRI_Read` returns the declared length and the block with
the payload and a zero after it. -/
theorem RRI_Read_full (w : World) (L : Nat) (payload rest : List Byte)
    (hin : w.inbound = htonl L ++ (payload ++ rest)) (hL : L ≤ 2147483647)
    (hp : payload.length = L)
    (hr1 : permits w.readSched 4 = true) (hr2 : permits w.readSched.tail L = true)
    (ha : allocates w.allocSched = true) :
    RRI_Read w =
      some (⟨(L : Int),
          some ⟨w.nextPtr,
            (storeAt (List.replicate (toSizeT (toInt ((L : Int) + 2))) none)
              (payload.map some)).set L (some 0)⟩⟩,
        { w with inbound := rest, readSched := w.readSched.tail.tail,
                 allocSched := w.allocSched.tail, nextPtr := w.nextPtr + 1,
                 trace := w.trace ++
                   [Event.sslRead 4 4,
                    Event.malloc (toSizeT (toInt ((L : Int) + 2))) (some w.nextPtr),
                    Event.sslRead L L, Event.setError 0] }) := by
  have h1 := SSL_read_full w 4 hr1 (by simp [hin, htonl_length])
  have htake : w.inbound.take 4 = htonl L := by simp [hin, htonl]
  have hdrop : w.inbound.drop 4 = payload ++ rest := by simp [hin, htonl]
  rw [htake, hdrop] at h1
  have h4c : ((4 : Nat) : Int) = 4 := rfl
  rw [h4c] at h1
  have hnl : storeAt ([0, 0, 0, 0] : List Byte) (htonl L) = htonl L := by
    simp [storeAt, htonl]
  have hsize : toInt ((ntohl (htonl L) : Nat) : Int) = (L : Int) := by
    rw [ntohl_htonl L (by omega)]
    exact toInt_of_lt _ (by omega) (by omega)
  have hreq := request_gt L hL
  simp only [RRI_Read, h1, hnl, hsize, ne_eq, not_true_eq_false, ↓reduceIte]
  rw [malloc_of_allocates]
  swap
  · exact ha
  simp only []
  rw [SSL_read_full]
  rotate_left
  · exact hr2
  · simp [hp]
  have hset : Block.setByte
      ⟨w.nextPtr, storeAt (List.replicate (toSizeT (toInt ((L : Int) + 2))) none)
        (List.map some (List.take L (payload ++ rest)))⟩ (L : Int) 0 =
      some ⟨w.nextPtr, (storeAt (List.replicate (toSizeT (toInt ((L : Int) + 2))) none)
        (payload.map some)).set L (some 0)⟩ := by
    have ht : List.take L (payload ++ rest) = payload := by
      rw [← hp]; simp
    rw [ht]
    have hlen : L < (storeAt (List.replicate (toSizeT (toInt ((L : Int) + 2))) none)
        (payload.map some)).length := by
      simp [storeAt, hp]; omega
    simp [Block.setByte, hlen]
  simp only [ne_eq, not_true_eq_false, ↓reduceIte, hset]
  have hd : List.drop L (payload ++ rest) = rest := by
    rw [← hp]; simp
  simp [SetError, hd]

theorem letters_nonzero (n : Nat) : ∀ b ∈ letters n, b ≠ 0 := by
  intro b hb
  rw [List.eq_of_mem_replicate hb]
  decide

theorem letters_length (n : Nat) : (letters n).length = n := List.length_replicate n 97

theorem sentBy_append (w : World) (bytes : List Byte) (w' : World)
    (h : w'.outbound = w.outbound ++ bytes) : sentBy w w' = bytes := by
  simp [sentBy, h]

theorem take_cstring (s after : List Byte) : (cstring s after).take s.length = s := by
  simp [cstring]

/-- An order whose length is a multiple of `2^32` plus `k`, with `k < 2^31`, is sent as an
order of `k` bytes. -/
theorem RRI_Send_wraps (s after : List Byte) (hs : ∀ b ∈ s, b ≠ 0) (q k : Nat)
    (hlen : s.length = 4294967296 * q + k) (hk : k < 2147483648) :
    RRI_Send idle (cstring s after) =
      some ((k : Int),
        { idle with outbound := htonl k ++ s.take k,
                    trace := [Event.sslWrite 4 4, Event.sslWrite k k] }) := by
  have hstr : strlen (cstring s after) = some s.length := strlen_append_zero s after hs
  have hto : toInt (s.length : Int) = (k : Int) := by
    rw [hlen]; unfold toInt; omega
  have h := RRI_Send_full idle (cstring s after) s.length k hstr hto rfl rfl
  rw [h]
  have ht : (cstring s after).take k = s.take k := by
    unfold cstring
    rw [List.take_append_of_le_length (by omega)]
  simp [idle, ht]

/-! ## C1 -/

/-- C1, counterexample: for the order of `2^32` bytes `'a'`, with no limit on any call,
`RRI_Send` declares the length `0`, sends no payload and returns `0`, so that the round trip
does not give back the length of the order. -/
theorem C1_roundTrip_fails_for_4G_order :
    RRI_Send idle (cstring (letters 4294967296) []) =
        some (0, { idle with outbound := [0, 0, 0, 0],
                             trace := [Event.sslWrite 4 4, Event.sslWrite 0 0] }) ∧
      ¬ RoundTrip idle idle (letters 4294967296) [] := by
  have hsend := RRI_Send_wraps (letters 4294967296) [] (letters_nonzero _) 1 0
    (by rw [letters_length]) (by decide)
  have hz : htonl 0 ++ List.take 0 (letters 4294967296) = [0, 0, 0, 0] := by
    rw [List.take_zero]; rfl
  rw [hz] at hsend
  refine ⟨hsend, ?_⟩
  rintro ⟨r, w', buf, p', hS, hR, -, -⟩
  rw [hsend] at hS
  have hw : w' = { idle with outbound := [0, 0, 0, 0],
                             trace := [Event.sslWrite 4 4, Event.sslWrite 0 0] } := by
    cases hS; rfl
  subst hw
  have hread : (RRI_Read (receive idle (sentBy idle
      { idle with outbound := [0, 0, 0, 0],
                  trace := [Event.sslWrite 4 4, Event.sslWrite 0 0] }))).map (·.1.ret)
      = some 0 := by decide
  rw [hR, letters_length] at hread
  simp at hread

/-- C1, amended: for every order `s` free of zero bytes and of at most `2^31 - 1` bytes, when
both writes and both reads are granted in full and the allocation succeeds, `RRI_Send` followed
by `RRI_Read` on the other end (nothing else pending there) returns the length of `s` and a
block whose first bytes are `s` and whose byte after them is zero. -/
theorem C1_roundTrip (w p : World) (s after : List Byte)
    (hs : ∀ b ∈ s, b ≠ 0) (hlen : s.length ≤ 2147483647)
    (hw1 : permits w.writeSched 4 = true) (hw2 : permits w.writeSched.tail s.length = true)
    (hp : p.inbound = [])
    (hr1 : permits p.readSched 4 = true) (hr2 : permits p.readSched.tail s.length = true)
    (ha : allocates p.allocSched = true) :
    RoundTrip w p s after := by
  have hstr : strlen (cstring s after) = some s.length := strlen_append_zero s after hs
  have hto : toInt (s.length : Int) = (s.length : Int) :=
    toInt_of_lt _ (by omega) (by omega)
  have hsend := RRI_Send_full w (cstring s after) s.length s.length hstr hto hw1 hw2
  rw [take_cstring] at hsend
  have hin : (receive p (sentBy w
      { w with outbound := w.outbound ++ htonl s.length ++ s,
               writeSched := w.writeSched.tail.tail,
               trace := w.trace ++ [Event.sslWrite 4 4,
                 Event.sslWrite s.length s.length] })).inbound = htonl s.length ++ (s ++ []) := by
    simp [receive, hp, sentBy]
  have hread := RRI_Read_full _ s.length s [] hin hlen rfl hr1 hr2 ha
  refine ⟨_, _, _, _, hsend, hread, ?_, ?_⟩
  · have := storeAt_set_take (List.replicate (toSizeT (toInt ((s.length : Int) + 2))) none)
      (s.map some) (some 0)
    simpa using this
  · have := storeAt_set_get (List.replicate (toSizeT (toInt ((s.length : Int) + 2))) none)
      (s.map some) (some 0) (by simpa using request_gt s.length hlen)
    simpa using this

/-- C1, witness: the order `"hello"` between two ends with no limit on any call. -/
theorem C1_roundTrip_hello : RoundTrip idle idle hello [] :=
  C1_roundTrip idle idle hello [] (by simp [hello]) (by decide) (by decide) (by decide) rfl
    (by decide) (by decide) (by decide)

/-! ## C2 -/

theorem SSL_write_ret_permits (w : World) (mem : List Byte) (n : Nat)
    (h : (SSL_write w mem (n : Int)).1 = (n : Int)) : permits w.writeSched n = true := by
  unfold SSL_write at h
  have hn : ¬ ((n : Int) < 0) := by omega
  simp only [hn, ↓reduceIte, Int.toNat_ofNat] at h
  cases hs : w.writeSched with
  | nil => rfl
  | cons st rest =>
      cases st with
      | upTo cap =>
          simp only [hs, grant, List.length_take] at h
          simp only [permits, decide_eq_true_eq]
          omega
      | fail =>
          simp only [hs, grant] at h
          omega

theorem SSL_write_sched (w : World) (mem : List Byte) (n : Nat) :
    (SSL_write w mem (n : Int)).2.writeSched = w.writeSched.tail := by
  unfold SSL_write
  have hn : ¬ ((n : Int) < 0) := by omega
  simp only [hn, ↓reduceIte, Int.toNat_ofNat]
  cases hs : w.writeSched with
  | nil => rfl
  | cons st rest => cases st <;> rfl

/-- A successful `RRI_Send` of an order whose `int` length is not negative had both writes
granted in full. -/
theorem permits_of_SendSucceeds (w : World) (order : List Byte) (len k : Nat)
    (hlen : strlen order = some len) (hk : toInt len = (k : Int))
    (h : SendSucceeds w order) :
    permits w.writeSched 4 = true ∧ permits w.writeSched.tail k = true := by
  obtain ⟨len', hlen', h1, h2⟩ := h
  rw [hlen] at hlen'
  cases hlen'
  have h4c : ((4 : Nat) : Int) = 4 := rfl
  unfold payloadWrite at h2
  unfold prefixWrite at h1 h2
  rw [hk] at h1 h2
  rw [← h4c] at h1 h2
  refine ⟨SSL_write_ret_permits _ _ 4 h1, ?_⟩
  have := SSL_write_ret_permits _ _ k h2
  rwa [SSL_write_sched] at this

theorem SendSucceeds_of_permits (w : World) (order : List Byte) (len k : Nat)
    (hlen : strlen order = some len) (hk : toInt len = (k : Int))
    (hw1 : permits w.writeSched 4 = true) (hw2 : permits w.writeSched.tail k = true) :
    SendSucceeds w order := by
  have hkl : k ≤ order.length := by
    have h1 := strlen_lt_length order len hlen
    have h2 : (k : Int) ≤ len := by rw [← hk]; unfold toInt; omega
    omega
  have h4c : ((4 : Nat) : Int) = 4 := rfl
  refine ⟨len, hlen, ?_, ?_⟩
  · unfold prefixWrite
    rw [← h4c, SSL_write_full w _ 4 hw1 (by simp [htonl_length])]
  · unfold payloadWrite prefixWrite
    rw [hk, SSL_write_full _ order k (by rw [← h4c, SSL_write_sched]; exact hw2) hkl]

/-- C2, counterexample: the three bytes `'a' 00 'b'` are sent as the one-byte order `'a'`
(five bytes on the wire, not seven), and the order of `2^32` bytes `'a'` is sent as the empty
order (four bytes on the wire). -/
theorem C2_send_frame_fails :
    ¬ SendWritesFrame idle [97, 0, 98] [] ∧ ¬ SendWritesFrame idle (letters 4294967296) [] := by
  constructor
  · intro h
    have hsucc : SendSucceeds idle (cstring [97, 0, 98] []) :=
      ⟨1, by decide, by decide, by decide⟩
    obtain ⟨r, w', hS, hl, -⟩ := h hsucc
    have hE : RRI_Send idle (cstring [97, 0, 98] []) =
        some (1, { idle with outbound := [0, 0, 0, 1, 97],
                             trace := [Event.sslWrite 4 4, Event.sslWrite 1 1] }) := by decide
    rw [hE] at hS
    cases hS
    revert hl
    decide
  · intro h
    have hstr : strlen (cstring (letters 4294967296) []) = some (letters 4294967296).length :=
      strlen_append_zero _ _ (letters_nonzero _)
    have hto : toInt ((letters 4294967296).length : Int) = ((0 : Nat) : Int) := by
      rw [letters_length]; decide
    have hsucc : SendSucceeds idle (cstring (letters 4294967296) []) :=
      SendSucceeds_of_permits idle _ _ 0 hstr hto rfl rfl
    obtain ⟨r, w', hS, hl, -⟩ := h hsucc
    have hsend := RRI_Send_wraps (letters 4294967296) [] (letters_nonzero _) 1 0
      (by rw [letters_length]) (by decide)
    rw [hsend] at hS
    cases hS
    rw [letters_length] at hl
    simp [sentBy, idle, htonl] at hl

/-- C2, amended: for every byte sequence `s` free of zero bytes and of length
`L ≤ 2^31 - 1`, a successful `RRI_Send` of `s` returns and has put on the wire exactly `4 + L`
bytes: the big-endian encoding of `L` and then the bytes of `s`. -/
theorem C2_send_writes_frame (w : World) (s after : List Byte)
    (hs : ∀ b ∈ s, b ≠ 0) (hlen : s.length ≤ 2147483647) :
    SendWritesFrame w s after := by
  intro hsucc
  have hstr : strlen (cstring s after) = some s.length := strlen_append_zero s after hs
  have hto : toInt (s.length : Int) = (s.length : Int) :=
    toInt_of_lt _ (by omega) (by omega)
  obtain ⟨hw1, hw2⟩ := permits_of_SendSucceeds w _ _ _ hstr hto hsucc
  have hsend := RRI_Send_full w (cstring s after) s.length s.length hstr hto hw1 hw2
  rw [take_cstring] at hsend
  refine ⟨_, _, hsend, ?_, ?_⟩
  · simp [sentBy, htonl_length]
  · simp [sentBy]

/-- C2, witness: the order `"hello"`, sent with no limit on any call. -/
theorem C2_send_writes_frame_hello :
    SendSucceeds idle (cstring hello []) ∧ SendWritesFrame idle hello [] :=
  ⟨⟨5, by decide, by decide, by decide⟩,
    C2_send_writes_frame idle hello [] (by simp [hello]) (by decide)⟩

/-! ## C3 and C4 -/

theorem SSL_read_neg (w : World) (num : Int) (h : num < 0) :
    SSL_read w num = ⟨-1, [], { w with trace := w.trace ++ [Event.sslRead num (-1)] }⟩ := by
  simp [SSL_read, h]

theorem declaredSize_of_prefix (w : World) (a b c d : Byte) (tail : List Byte)
    (hin : w.inbound = a :: b :: c :: d :: tail) (hr1 : permits w.readSched 4 = true) :
    declaredSize w = toInt (ntohl [a, b, c, d]) := by
  have h1 := SSL_read_full w 4 hr1 (by simp [hin])
  have h4c : ((4 : Nat) : Int) = 4 := rfl
  rw [h4c] at h1
  unfold declaredSize
  rw [h1]
  simp [hin, storeAt]

/-- A prefix that `RRI_Read` decodes as a negative `size` other than `-1` makes it fail,
whatever follows the prefix and whatever `malloc` returns. -/
theorem RRI_Read_negative (w : World) (a b c d : Byte) (tail : List Byte)
    (hin : w.inbound = a :: b :: c :: d :: tail) (hr1 : permits w.readSched 4 = true)
    (hneg : toInt (ntohl [a, b, c, d]) < 0) (hne : toInt (ntohl [a, b, c, d]) ≠ -1) :
    ∃ w', RRI_Read w = some (⟨0, none⟩, w') := by
  have h1 := SSL_read_full w 4 hr1 (by simp [hin])
  have h4c : ((4 : Nat) : Int) = 4 := rfl
  rw [h4c] at h1
  have hnl : storeAt ([0, 0, 0, 0] : List Byte) (List.take 4 w.inbound) = [a, b, c, d] := by
    simp [hin, storeAt]
  simp only [RRI_Read, h1, hnl, ne_eq, not_true_eq_false, ↓reduceIte]
  split
  · exact ⟨_, rfl⟩
  · rw [SSL_read_neg _ _ hneg]
    have hne' : ¬ ((-1 : Int) = toInt (ntohl [a, b, c, d])) := fun h => hne h.symm
    simp only [hne', not_false_eq_true, ↓reduceIte]
    exact ⟨_, rfl⟩

/-- C3, counterexample: on the prefix `FF FF FF FE` followed by `2^32 - 2` payload bytes
`RRI_Read` returns `0` and leaves `*result` at `NULL`. -/
theorem C3_read_fails_for_prefix_FFFFFFFE :
    (∃ w', RRI_Read (receive idle ([255, 255, 255, 254] ++ letters 4294967294)) =
        some (⟨0, none⟩, w')) ∧
      ¬ ReadsFrame (receive idle ([255, 255, 255, 254] ++ letters 4294967294)) 4294967294
          (letters 4294967294) := by
  have hex := RRI_Read_negative (receive idle ([255, 255, 255, 254] ++ letters 4294967294))
    255 255 255 254 (letters 4294967294) (by simp [receive, idle]) rfl (by decide) (by decide)
  refine ⟨hex, ?_⟩
  rintro ⟨buf, w', hR, -, -⟩
  obtain ⟨w0, hw0⟩ := hex
  rw [hw0] at hR
  cases hR

/-- C3, amended: when the pending bytes are the big-endian prefix of `L ≤ 2^31 - 1` followed
by at least `L` payload bytes (zero bytes among them or not), both reads are granted in full
and the allocation succeeds, `RRI_Read` returns `L` and a block that holds those `L` payload
bytes and a zero byte at offset `L`. -/
theorem C3_reads_frame (w : World) (L : Nat) (payload rest : List Byte)
    (hin : w.inbound = htonl L ++ (payload ++ rest)) (hL : L ≤ 2147483647)
    (hp : payload.length = L)
    (hr1 : permits w.readSched 4 = true) (hr2 : permits w.readSched.tail L = true)
    (ha : allocates w.allocSched = true) :
    ReadsFrame w L payload := by
  have hread := RRI_Read_full w L payload rest hin hL hp hr1 hr2 ha
  subst hp
  refine ⟨_, _, hread, ?_, ?_⟩
  · have := storeAt_set_take
      (List.replicate (toSizeT (toInt ((payload.length : Int) + 2))) none)
      (payload.map some) (some 0)
    simpa using this
  · have := storeAt_set_get
      (List.replicate (toSizeT (toInt ((payload.length : Int) + 2))) none)
      (payload.map some) (some 0) (by simpa using request_gt payload.length hL)
    simpa using this

/-- C3, witness: the pending bytes `00 00 00 03 'a' 'b' 'c'`. -/
theorem C3_reads_frame_abc :
    ReadsFrame (receive idle [0, 0, 0, 3, 97, 98, 99]) 3 [97, 98, 99] :=
  C3_reads_frame (receive idle [0, 0, 0, 3, 97, 98, 99]) 3 [97, 98, 99] [] (by decide)
    (by decide) rfl (by decide) (by decide) (by decide)

/-- C4, counterexample: on the prefix `80 00 00 00`, which encodes `2^31`, followed by `2^31`
payload bytes, `RRI_Read` works with `size = -2^31` and returns `0` with `*result` at `NULL`. -/
theorem C4_length_fails_for_prefix_80000000 :
    declaredSize (receive idle ([128, 0, 0, 0] ++ letters 2147483648)) = -2147483648 ∧
      (∃ w', RRI_Read (receive idle ([128, 0, 0, 0] ++ letters 2147483648)) =
        some (⟨0, none⟩, w')) ∧
      ¬ ReadsLength (receive idle ([128, 0, 0, 0] ++ letters 2147483648)) 2147483648 := by
  have hd := declaredSize_of_prefix (receive idle ([128, 0, 0, 0] ++ letters 2147483648))
    128 0 0 0 (letters 2147483648) (by simp [receive, idle]) rfl
  have hv : toInt (ntohl [128, 0, 0, 0]) = -2147483648 := by decide
  rw [hv] at hd
  have hex := RRI_Read_negative (receive idle ([128, 0, 0, 0] ++ letters 2147483648))
    128 0 0 0 (letters 2147483648) (by simp [receive, idle]) rfl (by decide) (by decide)
  refine ⟨hd, hex, ?_⟩
  rintro ⟨res, w', -, hsize, -⟩
  rw [hd] at hsize
  omega

/-- C4, amended: for every `L` in `0 .. 2^31 - 1` encoded big-endian in the prefix and followed
by `L` payload bytes, when both reads are granted in full and the allocation succeeds, the
length `RRI_Read` works with and the value it returns are exactly `L`. -/
theorem C4_reads_length (w : World) (L : Nat) (payload rest : List Byte)
    (hin : w.inbound = htonl L ++ (payload ++ rest)) (hL : L ≤ 2147483647)
    (hp : payload.length = L)
    (hr1 : permits w.readSched 4 = true) (hr2 : permits w.readSched.tail L = true)
    (ha : allocates w.allocSched = true) :
    ReadsLength w L := by
  have hread := RRI_Read_full w L payload rest hin hL hp hr1 hr2 ha
  have hin' : w.inbound = byteOf (L / 16777216) :: byteOf (L / 65536) :: byteOf (L / 256) ::
      byteOf L :: (payload ++ rest) := by
    rw [hin]; rfl
  have hd := declaredSize_of_prefix w _ _ _ _ _ hin' hr1
  have hn : ntohl [byteOf (L / 16777216), byteOf (L / 65536), byteOf (L / 256), byteOf L] = L :=
    ntohl_htonl L (by omega)
  rw [hn, toInt_of_lt _ (by omega) (by omega)] at hd
  exact ⟨_, _, hread, hd, rfl⟩

/-- C4, witness: the prefix `00 00 01 02` followed by `258` payload bytes. -/
theorem C4_reads_length_258 :
    ReadsLength (receive idle ([0, 0, 1, 2] ++ (letters 258 ++ []))) 258 :=
  C4_reads_length (receive idle ([0, 0, 1, 2] ++ (letters 258 ++ []))) 258
    (letters 258) [] rfl (by decide) (letters_length _) (by decide)
    (by decide) (by decide)

/-! ## C5 -/

theorem SSL_read_world (w : World) (num : Int) :
    (SSL_read w num).world.trace = w.trace ++ [Event.sslRead num (SSL_read w num).ret] ∧
      (SSL_read w num).world.allocSched = w.allocSched ∧
      (SSL_read w num).world.nextPtr = w.nextPtr ∧
      (SSL_read w num).world.outbound = w.outbound := by
  unfold SSL_read
  split
  · simp
  · rcases hg : grant w.readSched num.toNat with ⟨_ | k, rest⟩ <;> simp

/-- C5: when the first read returns a count other than 4 (fewer than four bytes of the prefix
were obtained, or the read failed), `RRI_Read` returns `0` with `*result` at `NULL`, and that
read is the only call it has made: no block is allocated. -/
theorem C5_short_prefix (w : World) (h : (SSL_read w 4).ret ≠ 4) :
    ∃ w', RRI_Read w = some (⟨0, none⟩, w') ∧
      w'.trace = w.trace ++ [Event.sslRead 4 (SSL_read w 4).ret] ∧
      w'.allocSched = w.allocSched ∧ w'.nextPtr = w.nextPtr := by
  refine ⟨(SSL_read w 4).world, ?_, (SSL_read_world w 4).1, (SSL_read_world w 4).2.1,
    (SSL_read_world w 4).2.2.1⟩
  simp only [RRI_Read, h, ne_eq, not_false_eq_true, ↓reduceIte]

/-- C5, witness: only the two bytes `00 00` are pending. -/
theorem C5_short_prefix_two_bytes :
    ∃ w', RRI_Read (receive idle [0, 0]) = some (⟨0, none⟩, w') ∧
      w'.trace = (receive idle [0, 0]).trace ++
        [Event.sslRead 4 (SSL_read (receive idle [0, 0]) 4).ret] ∧
      w'.allocSched = (receive idle [0, 0]).allocSched ∧
      w'.nextPtr = (receive idle [0, 0]).nextPtr :=
  C5_short_prefix (receive idle [0, 0]) (by decide)

/-- The body of `RRI_Read`, with its three steps named. -/
theorem RRI_Read_eq (w : World) :
    RRI_Read w =
      (if (SSL_read w 4).ret ≠ 4 then some (⟨0, none⟩, (SSL_read w 4).world)
       else match (allocStep w).1 with
        | none => some (⟨0, none⟩, (allocStep w).2)
        | some buf =>
            if (payloadRead w).ret ≠ declaredSize w then
              some (⟨0, none⟩, free (payloadRead w).world
                { buf with cells := storeAt buf.cells ((payloadRead w).data.map some) })
            else
              match Block.setByte
                  { buf with cells := storeAt buf.cells ((payloadRead w).data.map some) }
                  (declaredSize w) 0 with
              | none => some (⟨declaredSize w, some
                    { buf with cells := storeAt buf.cells ((payloadRead w).data.map some) }⟩,
                  SetError (storeOutside (payloadRead w).world
                    { buf with cells := storeAt buf.cells ((payloadRead w).data.map some) }
                    (declaredSize w)) 0)
              | some buf2 => some (⟨declaredSize w, some buf2⟩,
                  SetError (payloadRead w).world 0)) := by
  simp only [RRI_Read, payloadRead, allocStep, declaredSize]

theorem allocStep_of_allocates (w : World)
    (hm : allocates (SSL_read w 4).world.allocSched = true) :
    (allocStep w).1 =
        some ⟨w.nextPtr, List.replicate (toSizeT (toInt (declaredSize w + 2))) none⟩ ∧
      (allocStep w).2.trace = w.trace ++ [Event.sslRead 4 (SSL_read w 4).ret,
        Event.malloc (toSizeT (toInt (declaredSize w + 2))) (some w.nextPtr)] := by
  have hw := SSL_read_world w 4
  unfold allocStep
  rw [malloc_of_allocates _ _ hm]
  simp [hw.1, hw.2.2.1]

/-! ## C7 -/

theorem SSL_write_world (w : World) (mem : List Byte) (num : Int) :
    (SSL_write w mem num).2.trace = w.trace ++ [Event.sslWrite num (SSL_write w mem num).1] ∧
      ∃ part, part <+: mem ∧ (SSL_write w mem num).2.outbound = w.outbound ++ part ∧
        ((SSL_write w mem num).1 = (part.length : Int) ∨
          ((SSL_write w mem num).1 = -1 ∧ part = [])) := by
  unfold SSL_write
  split
  · exact ⟨rfl, [], List.nil_prefix, by simp, Or.inr ⟨rfl, rfl⟩⟩
  · rcases hg : grant w.writeSched num.toNat with ⟨_ | k, rest⟩
    · exact ⟨rfl, [], List.nil_prefix, by simp, Or.inr ⟨rfl, rfl⟩⟩
    · exact ⟨rfl, mem.take k, List.take_prefix k mem, rfl, Or.inl rfl⟩

theorem RRI_Send_eq (w : World) (order : List Byte) (len : Nat)
    (hlen : strlen order = some len) :
    RRI_Send w order =
      (if (prefixWrite w len).1 ≠ 4 then some (0, (prefixWrite w len).2)
       else if (payloadWrite w order len).1 ≠ toInt len then
         some (0, (payloadWrite w order len).2)
       else some ((payloadWrite w order len).1, (payloadWrite w order len).2)) := by
  simp only [RRI_Send, hlen, payloadWrite, prefixWrite]

/-- C7: when the write of the prefix returns a count other than 4, `RRI_Send` returns `0`,
that write is the only call it has made (the payload write is not attempted), and what went on
the wire is fewer than four bytes of the prefix: no byte of the payload. -/
theorem C7_short_prefix_write (w : World) (order : List Byte) (len : Nat)
    (hlen : strlen order = some len) (h : (prefixWrite w len).1 ≠ 4) :
    ∃ w', RRI_Send w order = some (0, w') ∧
      w'.trace = w.trace ++ [Event.sslWrite 4 (prefixWrite w len).1] ∧
      ∃ part, sentBy w w' = part ∧ part <+: htonl (toUInt32 (toInt len)) ∧ part.length < 4 := by
  obtain ⟨htr, part, hpre, hout, hret⟩ :=
    SSL_write_world w (htonl (toUInt32 (toInt len))) 4
  refine ⟨(prefixWrite w len).2, ?_, htr, part, ?_, hpre, ?_⟩
  · rw [RRI_Send_eq w order len hlen]
    simp only [h, ne_eq, not_false_eq_true, ↓reduceIte]
  · exact sentBy_append w part _ hout
  · have hle : part.length ≤ 4 := by
      have := hpre.length_le
      simpa [htonl_length] using this
    have hne : part.length ≠ 4 := by
      intro h4
      rcases hret with hr | ⟨-, hnil⟩
      · apply h
        show (SSL_write w (htonl (toUInt32 (toInt len))) 4).1 = 4
        rw [hr, h4]; rfl
      · rw [hnil] at h4; simp at h4
    omega

/-- C7, witness: the order `"hello"` on a stream that takes two bytes at the first write. -/
theorem C7_short_prefix_write_two_bytes :
    ∃ w', RRI_Send { idle with writeSched := [IOStep.upTo 2] } (cstring hello []) =
        some (0, w') ∧
      w'.trace = ({ idle with writeSched := [IOStep.upTo 2] } : World).trace ++
        [Event.sslWrite 4 (prefixWrite { idle with writeSched := [IOStep.upTo 2] } 5).1] ∧
      ∃ part, sentBy { idle with writeSched := [IOStep.upTo 2] } w' = part ∧
        part <+: htonl (toUInt32 (toInt (5 : Nat))) ∧ part.length < 4 :=
  C7_short_prefix_write { idle with writeSched := [IOStep.upTo 2] } (cstring hello []) 5
    (by decide) (by decide)

/-! ## C8 -/

theorem SSL_write_neg (w : World) (mem : List Byte) (num : Int) (h : num < 0) :
    SSL_write w mem num = (-1, { w with trace := w.trace ++ [Event.sslWrite num (-1)] }) := by
  simp [SSL_write, h]

/-- The four bytes of the prefix of an order of `len` bytes are the big-endian bytes of `len`
(of its residue modulo `2^32`). -/
theorem prefix_bytes (len : Nat) : htonl (toUInt32 (toInt (len : Int))) = htonl len := by
  have h : toUInt32 (toInt (len : Int)) = len % 4294967296 := by
    unfold toUInt32 toInt; omega
  rw [h]
  simp only [htonl, byteOf, List.cons.injEq, Fin.mk.injEq, and_true]
  omega

/-- An order whose `int` length is `-1` (`2^32 - 1` bytes): the payload write is refused,
returns `-1`, and `RRI_Send` returns that `-1`. -/
theorem RRI_Send_minus_one (w : World) (order : List Byte) (len : Nat)
    (hlen : strlen order = some len) (hto : toInt (len : Int) = -1)
    (hw1 : permits w.writeSched 4 = true) :
    RRI_Send w order =
      some (-1, { w with outbound := w.outbound ++ htonl len,
                         writeSched := w.writeSched.tail,
                         trace := w.trace ++ [Event.sslWrite 4 4, Event.sslWrite (-1) (-1)] }) ∧
      sentBy (prefixWrite w len).2 (payloadWrite w order len).2 = [] ∧
      sentBy w (prefixWrite w len).2 = htonl len := by
  have h4c : ((4 : Nat) : Int) = 4 := rfl
  have h4 := SSL_write_full w (htonl len) 4 hw1 (by simp [htonl_length])
  have h4take : (htonl len).take 4 = htonl len := by simp [htonl]
  rw [h4take, h4c] at h4
  have hpw : prefixWrite w len =
      (4, { w with outbound := w.outbound ++ htonl len, writeSched := w.writeSched.tail,
                   trace := w.trace ++ [Event.sslWrite 4 4] }) := by
    unfold prefixWrite
    rw [prefix_bytes, h4]
  have hpay : payloadWrite w order len =
      (-1, { w with outbound := w.outbound ++ htonl len, writeSched := w.writeSched.tail,
                    trace := w.trace ++ [Event.sslWrite 4 4, Event.sslWrite (-1) (-1)] }) := by
    unfold payloadWrite
    rw [hto, SSL_write_neg _ _ _ (by decide), hpw]
    simp
  refine ⟨?_, ?_, ?_⟩
  · rw [RRI_Send_eq w order len hlen, hpay, hpw, hto]
    simp
  · rw [hpay, hpw]
    simp [sentBy]
  · rw [hpw]
    simp [sentBy]

theorem cstring_length (s after : List Byte) :
    (cstring s after).length = s.length + 1 + after.length := by
  simp [cstring]; omega

/-- The number of bytes that a payload write granted in full puts on the wire. -/
theorem payloadWrite_sent (w : World) (order : List Byte) (len k : Nat)
    (hk : toInt (len : Int) = (k : Int))
    (hp : permits (prefixWrite w len).2.writeSched k = true) (hkl : k ≤ order.length) :
    (sentBy (prefixWrite w len).2 (payloadWrite w order len).2).length = k := by
  unfold payloadWrite
  rw [hk, SSL_write_full _ order k hp hkl]
  simp [sentBy, hkl]

/-- C8, counterexample: for the order of `2^32 - 1` bytes `'a'` the prefix goes out whole and
the payload write is refused, and `RRI_Send` returns `-1`; for the order of `2^32 + 1` bytes
the payload write sends one byte, and `RRI_Send` returns `1`. Neither returns `0`. -/
theorem C8_short_payload_write_missed_for_4G_orders :
    (RRI_Send idle (cstring (letters 4294967295) [])).map (·.1) = some (-1) ∧
      ¬ ShortPayloadWriteFails idle (cstring (letters 4294967295) []) 4294967295 ∧
      (RRI_Send idle (cstring (letters 4294967297) [])).map (·.1) = some 1 ∧
      ¬ ShortPayloadWriteFails idle (cstring (letters 4294967297) []) 4294967297 := by
  have hstr1 : strlen (cstring (letters 4294967295) []) = some 4294967295 := by
    have := strlen_append_zero (letters 4294967295) [] (letters_nonzero _)
    rwa [letters_length] at this
  obtain ⟨hs1, hpay1, hpre1⟩ := RRI_Send_minus_one idle (cstring (letters 4294967295) [])
    4294967295 hstr1 (by decide) rfl
  have hstr2 : strlen (cstring (letters 4294967297) []) = some 4294967297 := by
    have := strlen_append_zero (letters 4294967297) [] (letters_nonzero _)
    rwa [letters_length] at this
  have hs2 := RRI_Send_wraps (letters 4294967297) [] (letters_nonzero _) 1 1
    (by rw [letters_length]) (by decide)
  have hpre2 : (sentBy idle (prefixWrite idle 4294967297).2).length = 4 := by decide
  have hpay2 : (sentBy (prefixWrite idle 4294967297).2
      (payloadWrite idle (cstring (letters 4294967297) []) 4294967297).2).length
      < 4294967297 := by
    rw [payloadWrite_sent idle (cstring (letters 4294967297) []) 4294967297 1 (by decide)
      (by decide) (by rw [cstring_length, letters_length]; omega)]
    omega
  refine ⟨by rw [hs1]; rfl, ?_, by rw [hs2]; rfl, ?_⟩
  · intro h
    obtain ⟨w', part, hS, -⟩ := h (by rw [hpre1]; rfl) (by rw [hpay1]; decide)
    rw [hs1] at hS
    have := congrArg (Option.map (·.1)) hS
    simp at this
  · intro h
    obtain ⟨w', part, hS, -⟩ := h hpre2 hpay2
    rw [hs2] at hS
    have := congrArg (Option.map (·.1)) hS
    simp at this

/-- C8, amended: for every order of at most `2^32 - 2` bytes, when the prefix write has put
its four bytes on the wire and the payload write has put fewer bytes on it than the order has,
`RRI_Send` returns `0`, and the wire holds the complete four-byte prefix of the length,
followed by the part of the order that the payload write has sent. -/
theorem C8_short_payload_write (w : World) (order : List Byte) (len : Nat)
    (hlen : strlen order = some len) (hL : len ≤ 4294967294) :
    ShortPayloadWriteFails w order len := by
  intro hpre hpay
  obtain ⟨-, pre, hprefix, hout, hret⟩ :=
    SSL_write_world w (htonl (toUInt32 (toInt len))) 4
  obtain ⟨-, part, hpart, hout2, hret2⟩ :=
    SSL_write_world (prefixWrite w len).2 order (toInt len)
  have hs1 : sentBy w (prefixWrite w len).2 = pre := sentBy_append w pre _ hout
  have hs2 : sentBy (prefixWrite w len).2 (payloadWrite w order len).2 = part :=
    sentBy_append _ part _ hout2
  rw [hs1] at hpre
  rw [hs2] at hpay
  have hfull : pre = htonl len := by
    rw [← prefix_bytes len]
    exact hprefix.eq_of_length (by rw [hpre, htonl_length])
  have h1 : (prefixWrite w len).1 = 4 := by
    show (SSL_write w (htonl (toUInt32 (toInt len))) 4).1 = 4
    rcases hret with hr | ⟨-, hnil⟩
    · rw [hr, hpre]; rfl
    · rw [hnil] at hpre; simp at hpre
  have h2 : (payloadWrite w order len).1 ≠ toInt len := by
    show (SSL_write (prefixWrite w len).2 order (toInt len)).1 ≠ toInt len
    rcases hret2 with hr | ⟨hr, -⟩
    · rw [hr]; unfold toInt; omega
    · rw [hr]; unfold toInt; omega
  refine ⟨(payloadWrite w order len).2, part, ?_, ?_, hpart, hpay⟩
  · rw [RRI_Send_eq w order len hlen]
    simp only [h1, h2, ne_eq, not_true_eq_false, not_false_eq_true, ↓reduceIte]
  · apply sentBy_append
    show (SSL_write (prefixWrite w len).2 order (toInt len)).2.outbound = _
    rw [hout2]
    show (SSL_write w (htonl (toUInt32 (toInt len))) 4).2.outbound ++ _ = _
    rw [hout, hfull, List.append_assoc]

/-- C8, witness: the order `"hello"` on a stream that takes the four bytes of the prefix and
then two bytes of the payload. -/
theorem C8_short_payload_write_two_bytes :
    (sentBy { idle with writeSched := [IOStep.upTo 4, IOStep.upTo 2] }
        (prefixWrite { idle with writeSched := [IOStep.upTo 4, IOStep.upTo 2] } 5).2).length
        = 4 ∧
      (sentBy (prefixWrite { idle with writeSched := [IOStep.upTo 4, IOStep.upTo 2] } 5).2
        (payloadWrite { idle with writeSched := [IOStep.upTo 4, IOStep.upTo 2] }
          (cstring hello []) 5).2).length < 5 ∧
      ShortPayloadWriteFails { idle with writeSched := [IOStep.upTo 4, IOStep.upTo 2] }
        (cstring hello []) 5 :=
  ⟨by decide, by decide,
    C8_short_payload_write { idle with writeSched := [IOStep.upTo 4, IOStep.upTo 2] }
      (cstring hello []) 5 (by decide) (by decide)⟩

/-! ## C9 and C10 -/

/-- C9, counterexample: the order of `2^32 + 1` bytes `'a'` is sent, with success, as an order
of one byte, and `RRI_Send` returns `1`. -/
theorem C9_return_fails_for_4G_order :
    strlen (cstring (letters 4294967297) []) = some 4294967297 ∧
      RRI_Send idle (cstring (letters 4294967297) []) =
        some (1, { idle with outbound := [0, 0, 0, 1, 97],
                             trace := [Event.sslWrite 4 4, Event.sslWrite 1 1] }) ∧
      ¬ SendReturnsLength idle (cstring (letters 4294967297) []) 4294967297 := by
  have hstr : strlen (cstring (letters 4294967297) []) = some (letters 4294967297).length :=
    strlen_append_zero _ _ (letters_nonzero _)
  have hsend := RRI_Send_wraps (letters 4294967297) [] (letters_nonzero _) 1 1
    (by rw [letters_length]) (by decide)
  have hz : htonl 1 ++ List.take 1 (letters 4294967297) = [0, 0, 0, 1, 97] := rfl
  rw [hz] at hsend
  have hto : toInt ((letters 4294967297).length : Int) = ((1 : Nat) : Int) := by
    rw [letters_length]; decide
  have hsucc : SendSucceeds idle (cstring (letters 4294967297) []) :=
    SendSucceeds_of_permits idle _ _ 1 hstr hto rfl rfl
  rw [letters_length] at hstr
  refine ⟨hstr, hsend, ?_⟩
  intro h
  obtain ⟨w', hS, -⟩ := h hsucc
  rw [hsend] at hS
  have hret := congrArg (Option.map (·.1)) hS
  simp at hret

/-- C9, amended: for every order of at most `2^31 - 1` bytes, a successful `RRI_Send` returns
the number of payload bytes it has written, which is the byte length of the order (the
terminating zero and the four prefix bytes not counted). -/
theorem C9_returns_length (w : World) (order : List Byte) (len : Nat)
    (hlen : strlen order = some len) (hL : len ≤ 2147483647) :
    SendReturnsLength w order len := by
  intro hsucc
  have hto : toInt (len : Int) = (len : Int) := toInt_of_lt _ (by omega) (by omega)
  obtain ⟨hw1, hw2⟩ := permits_of_SendSucceeds w order len len hlen hto hsucc
  have hsend := RRI_Send_full w order len len hlen hto hw1 hw2
  refine ⟨_, hsend, ?_⟩
  have hl := strlen_lt_length order len hlen
  simp [sentBy, htonl_length]
  omega

/-- C9, witness: the order `"hello"`, sent with no limit on any call, returns `5`. -/
theorem C9_returns_length_hello :
    SendSucceeds idle (cstring hello []) ∧ SendReturnsLength idle (cstring hello []) 5 :=
  ⟨⟨5, by decide, by decide, by decide⟩,
    C9_returns_length idle (cstring hello []) 5 (by decide) (by decide)⟩

/-- C10: a successful `RRI_Send` of the empty order (the first byte of `order` is the
terminating zero) returns `0` and has put on the wire the four bytes `00 00 00 00` and nothing
else. -/
theorem C10_empty_order (w : World) (after : List Byte)
    (h : SendSucceeds w (cstring [] after)) :
    ∃ w', RRI_Send w (cstring [] after) = some (0, w') ∧ sentBy w w' = [0, 0, 0, 0] := by
  have hstr : strlen (cstring [] after) = some 0 := by simp [cstring, strlen]
  have hto : toInt ((0 : Nat) : Int) = ((0 : Nat) : Int) := by decide
  obtain ⟨hw1, hw2⟩ := permits_of_SendSucceeds w _ 0 0 hstr hto h
  have hsend := RRI_Send_full w (cstring [] after) 0 0 hstr hto hw1 hw2
  refine ⟨_, hsend, ?_⟩
  apply sentBy_append
  simp [htonl, byteOf]

/-- C10, witness: the empty order, sent with no limit on any call. -/
theorem C10_empty_order_idle :
    ∃ w', RRI_Send idle (cstring [] []) = some (0, w') ∧ sentBy idle w' = [0, 0, 0, 0] :=
  C10_empty_order idle [] ⟨0, by decide, by decide, by decide⟩

/-! ## The paths of `RRI_Read` -/

theorem malloc_world (w : World) (request : Nat) :
    (malloc w request).2.trace =
        w.trace ++ [Event.malloc request ((malloc w request).1.map (·.ptr))] ∧
      (malloc w request).2.inbound = w.inbound ∧
      (malloc w request).2.readSched = w.readSched ∧
      ((malloc w request).1 = none ↔ allocates w.allocSched = false) := by
  cases hs : w.allocSched with
  | nil => simp [malloc, allocates, hs]
  | cons b rest => cases b <;> simp [malloc, allocates, hs]

/-- What a call of `SSL_read` takes from the stream: the bytes it stores are the first bytes
that were pending, the rest stays pending, and the value returned is their number or `-1`. -/
theorem SSL_read_pending (w : World) (num : Int) :
    w.inbound = (SSL_read w num).data ++ (SSL_read w num).world.inbound ∧
      ((SSL_read w num).ret = ((SSL_read w num).data.length : Int) ∨
        ((SSL_read w num).ret = -1 ∧ (SSL_read w num).data = [])) := by
  unfold SSL_read
  split
  · exact ⟨by simp, Or.inr ⟨rfl, rfl⟩⟩
  · rcases hg : grant w.readSched num.toNat with ⟨_ | k, rest⟩
    · exact ⟨by simp, Or.inr ⟨rfl, rfl⟩⟩
    · exact ⟨by simp, Or.inl rfl⟩

/-- The five ways through `RRI_Read`: the three failing returns, and the last return after
a store outside the block or after a store inside it. -/
theorem RRI_Read_cases (w : World) :
    ((SSL_read w 4).ret ≠ 4 ∧ RRI_Read w = some (⟨0, none⟩, (SSL_read w 4).world)) ∨
    ((SSL_read w 4).ret = 4 ∧ (allocStep w).1 = none ∧
      RRI_Read w = some (⟨0, none⟩, (allocStep w).2)) ∨
    (∃ buf, (SSL_read w 4).ret = 4 ∧ (allocStep w).1 = some buf ∧
      (payloadRead w).ret ≠ declaredSize w ∧
      RRI_Read w = some (⟨0, none⟩, free (payloadRead w).world
        { buf with cells := storeAt buf.cells ((payloadRead w).data.map some) })) ∨
    (∃ buf, (SSL_read w 4).ret = 4 ∧ (allocStep w).1 = some buf ∧
      (payloadRead w).ret = declaredSize w ∧
      Block.setByte { buf with cells := storeAt buf.cells ((payloadRead w).data.map some) }
        (declaredSize w) 0 = none ∧
      RRI_Read w = some (⟨declaredSize w, some
          { buf with cells := storeAt buf.cells ((payloadRead w).data.map some) }⟩,
        SetError (storeOutside (payloadRead w).world
          { buf with cells := storeAt buf.cells ((payloadRead w).data.map some) }
          (declaredSize w)) 0)) ∨
    (∃ buf buf2, (SSL_read w 4).ret = 4 ∧ (allocStep w).1 = some buf ∧
      (payloadRead w).ret = declaredSize w ∧
      Block.setByte { buf with cells := storeAt buf.cells ((payloadRead w).data.map some) }
        (declaredSize w) 0 = some buf2 ∧
      RRI_Read w = some (⟨declaredSize w, some buf2⟩, SetError (payloadRead w).world 0)) := by
  rw [RRI_Read_eq]
  by_cases h1 : (SSL_read w 4).ret = 4
  · right
    cases ha : (allocStep w).1 with
    | none =>
        left
        simp only [h1, ne_eq, not_true_eq_false, ↓reduceIte, and_self, true_and]
    | some buf =>
        right
        by_cases h2 : (payloadRead w).ret = declaredSize w
        · right
          cases hs : Block.setByte
              { buf with cells := storeAt buf.cells ((payloadRead w).data.map some) }
              (declaredSize w) 0 with
          | none =>
              left
              refine ⟨buf, h1, rfl, h2, hs, ?_⟩
              simp only [h1, ne_eq, not_true_eq_false, ↓reduceIte, h2, hs]
          | some buf2 =>
              right
              refine ⟨buf, buf2, h1, rfl, h2, hs, ?_⟩
              simp only [h1, ne_eq, not_true_eq_false, ↓reduceIte, h2, hs]
        · left
          refine ⟨buf, h1, rfl, h2, ?_⟩
          simp only [h1, ne_eq, not_true_eq_false, ↓reduceIte, h2, not_false_eq_true]
  · left
    exact ⟨h1, by simp only [h1, ne_eq, not_false_eq_true, ↓reduceIte]⟩

theorem callsMade_append (w w' : World) (es : List Event) (h : w'.trace = w.trace ++ es) :
    callsMade w w' = es := by
  simp [callsMade, h]

theorem allocStep_world (w : World) :
    (allocStep w).2.trace = w.trace ++ [Event.sslRead 4 (SSL_read w 4).ret,
        Event.malloc (toSizeT (toInt (declaredSize w + 2))) ((allocStep w).1.map (·.ptr))] ∧
      (allocStep w).2.inbound = (SSL_read w 4).world.inbound := by
  have hw := SSL_read_world w 4
  have hm := malloc_world (SSL_read w 4).world (toSizeT (toInt (declaredSize w + 2)))
  refine ⟨?_, hm.2.1⟩
  show (malloc (SSL_read w 4).world (toSizeT (toInt (declaredSize w + 2)))).2.trace = _
  rw [hm.1, hw.1]
  simp [allocStep]

theorem payloadRead_trace (w : World) :
    (payloadRead w).world.trace = w.trace ++ [Event.sslRead 4 (SSL_read w 4).ret,
        Event.malloc (toSizeT (toInt (declaredSize w + 2))) ((allocStep w).1.map (·.ptr)),
        Event.sslRead (declaredSize w) (payloadRead w).ret] := by
  have hw := (SSL_read_world (allocStep w).2 (declaredSize w)).1
  show (SSL_read (allocStep w).2 (declaredSize w)).world.trace = _
  rw [hw, (allocStep_world w).1]
  simp [payloadRead]

/-- After a prefix read that returned 4, the four bytes read are the first four that were
pending and the others are still pending. -/
theorem prefix_consumed (w : World) (h1 : (SSL_read w 4).ret = 4) :
    (SSL_read w 4).data = w.inbound.take 4 ∧ (SSL_read w 4).data.length = 4 ∧
      (SSL_read w 4).world.inbound = w.inbound.drop 4 := by
  obtain ⟨hsplit, hret⟩ := SSL_read_pending w 4
  have hlen : (SSL_read w 4).data.length = 4 := by
    rcases hret with hr | ⟨hr, -⟩
    · rw [h1] at hr; omega
    · rw [h1] at hr; omega
  refine ⟨?_, hlen, ?_⟩
  · rw [hsplit, List.take_left' hlen]
  · rw [hsplit, List.drop_left' hlen]

/-! ## C11 -/

/-- C11: when the prefix of a frame of `L` payload bytes was read in full and `malloc` returns
`NULL`, `RRI_Read` returns `0` with `*result` at `NULL` after two calls, the read of the prefix
and the `malloc`: it has taken the four prefix bytes and nothing else from the stream, where
the `L` payload bytes are still pending. -/
theorem C11_alloc_failure (w : World) (L : Nat) (payload rest : List Byte)
    (hin : w.inbound = htonl L ++ (payload ++ rest)) (hp : payload.length = L)
    (h1 : (SSL_read w 4).ret = 4) (hf : (allocStep w).1 = none) :
    ∃ w', RRI_Read w = some (⟨0, none⟩, w') ∧
      w'.inbound = payload ++ rest ∧ w'.inbound.take L = payload ∧
      callsMade w w' = [Event.sslRead 4 4,
        Event.malloc (toSizeT (toInt (declaredSize w + 2))) none] := by
  have hin' : (allocStep w).2.inbound = payload ++ rest := by
    rw [(allocStep_world w).2, (prefix_consumed w h1).2.2, hin]
    exact List.drop_left' (htonl_length L)
  refine ⟨(allocStep w).2, ?_, hin', ?_, ?_⟩
  · rw [RRI_Read_eq]
    simp only [h1, ne_eq, not_true_eq_false, ↓reduceIte, hf]
  · rw [hin', ← hp]; simp
  · apply callsMade_append
    rw [(allocStep_world w).1, hf, h1]
    rfl

/-- C11, witness: the frame `00 00 00 03 'a' 'b' 'c'` on a process whose next `malloc`
returns `NULL`. -/
theorem C11_alloc_failure_abc :
    ∃ w', RRI_Read { receive idle [0, 0, 0, 3, 97, 98, 99] with allocSched := [false] } =
        some (⟨0, none⟩, w') ∧
      w'.inbound = [97, 98, 99] ++ [] ∧ w'.inbound.take 3 = [97, 98, 99] ∧
      callsMade { receive idle [0, 0, 0, 3, 97, 98, 99] with allocSched := [false] } w' =
        [Event.sslRead 4 4,
         Event.malloc (toSizeT (toInt (declaredSize
           { receive idle [0, 0, 0, 3, 97, 98, 99] with allocSched := [false] } + 2))) none] :=
  C11_alloc_failure { receive idle [0, 0, 0, 3, 97, 98, 99] with allocSched := [false] } 3
    [97, 98, 99] [] (by decide) (by decide) (by decide) (by decide)

/-! ## C12 -/

theorem request_eq (L : Nat) (hL : L ≤ 2147483645) :
    toSizeT (toInt ((L : Int) + 2)) = L + 2 := by
  unfold toSizeT toInt; omega

theorem block_layout (payload : List Byte) :
    (storeAt (List.replicate (payload.length + 2) none) (payload.map some)).set
        payload.length (some 0) = payload.map some ++ [some 0, none] := by
  have hd : List.drop payload.length (List.replicate (payload.length + 2) (none : Option Byte))
      = [none, none] := by
    rw [List.drop_replicate]
    have : payload.length + 2 - payload.length = 2 := by omega
    rw [this]; rfl
  have hl : (payload.map some).length = payload.length := List.length_map _ _
  unfold storeAt
  rw [hl, hd, ← hl, List.set_append_right _ _ (le_refl _)]
  simp

/-- C12, counterexample: for the frame `00 00 00 03 'a' 'b' 'c'` the block asked for and
returned has five bytes, not four. -/
theorem C12_block_is_not_length_plus_one :
    RRI_Read (receive idle [0, 0, 0, 3, 97, 98, 99]) =
        some (⟨3, some ⟨0, [some 97, some 98, some 99, some 0, none]⟩⟩,
          { idle with nextPtr := 1,
                      trace := [Event.sslRead 4 4, Event.malloc 5 (some 0),
                                Event.sslRead 3 3, Event.setError 0] }) ∧
      ¬ AllocatesExactly (receive idle [0, 0, 0, 3, 97, 98, 99]) (3 + 1) := by
  have hE : RRI_Read (receive idle [0, 0, 0, 3, 97, 98, 99]) =
      some (⟨3, some ⟨0, [some 97, some 98, some 99, some 0, none]⟩⟩,
        { idle with nextPtr := 1,
                    trace := [Event.sslRead 4 4, Event.malloc 5 (some 0),
                              Event.sslRead 3 3, Event.setError 0] }) := by decide
  refine ⟨hE, ?_⟩
  rintro ⟨ret, buf, w', hR, hlen, -⟩
  rw [hE] at hR
  cases hR
  revert hlen
  decide

/-- C12, amended: the block `RRI_Read` allocates for a frame of declared length
`L ≤ 2^31 - 3` is asked for with `malloc(L + 2)` and has exactly `L + 2` bytes: the payload,
the terminating zero byte, and one more byte that is never written. -/
theorem C12_block_is_length_plus_two (w : World) (L : Nat) (payload rest : List Byte)
    (hin : w.inbound = htonl L ++ (payload ++ rest)) (hL : L ≤ 2147483645)
    (hp : payload.length = L)
    (hr1 : permits w.readSched 4 = true) (hr2 : permits w.readSched.tail L = true)
    (ha : allocates w.allocSched = true) :
    AllocatesExactly w (L + 2) ∧
      ∃ w', RRI_Read w =
        some (⟨(L : Int), some ⟨w.nextPtr, payload.map some ++ [some 0, none]⟩⟩, w') := by
  have hread := RRI_Read_full w L payload rest hin (by omega) hp hr1 hr2 ha
  rw [request_eq L hL] at hread
  subst hp
  rw [block_layout payload] at hread
  refine ⟨⟨_, _, _, hread, by simp, ?_⟩, _, hread⟩
  rw [callsMade_append w _ _ rfl]
  simp

/-- C12, witness: the frame `00 00 00 03 'a' 'b' 'c'` gets a block of five bytes. -/
theorem C12_block_is_length_plus_two_abc :
    AllocatesExactly (receive idle [0, 0, 0, 3, 97, 98, 99]) (3 + 2) ∧
      ∃ w', RRI_Read (receive idle [0, 0, 0, 3, 97, 98, 99]) =
        some (⟨((3 : Nat) : Int), some ⟨(receive idle [0, 0, 0, 3, 97, 98, 99]).nextPtr,
          ([97, 98, 99] : List Byte).map some ++ [some 0, none]⟩⟩, w') :=
  C12_block_is_length_plus_two (receive idle [0, 0, 0, 3, 97, 98, 99]) 3 [97, 98, 99] []
    (by decide) (by decide) rfl (by decide) (by decide) (by decide)

/-! ## What `RRI_Read` does when a read comes short -/

theorem ntohl_lt (nl : List Byte) : ntohl nl < 4294967296 := by
  have h0 := (nl.getD 0 0).isLt
  have h1 := (nl.getD 1 0).isLt
  have h2 := (nl.getD 2 0).isLt
  have h3 := (nl.getD 3 0).isLt
  unfold ntohl
  omega

theorem toInt_range (x : Int) : -2147483648 ≤ toInt x ∧ toInt x < 2147483648 := by
  unfold toInt; omega

theorem declaredSize_eq (w : World) : declaredSize w = toInt (declaredLength w) := rfl

theorem declaredLength_lt (w : World) : declaredLength w < 4294967296 := ntohl_lt _

/-- The bytes a call of `SSL_read` stores are not more than the count asked. -/
theorem SSL_read_bound (w : World) (num : Int) :
    (SSL_read w num).data.length ≤ num.toNat := by
  unfold SSL_read
  split
  · simp
  · rcases hg : grant w.readSched num.toNat with ⟨_ | k, rest⟩
    · simp
    · have := grant_le _ _ _ _ hg
      simp only [List.length_take]
      omega

theorem malloc_block (w : World) (request : Nat) (b : Block)
    (h : (malloc w request).1 = some b) :
    b = ⟨w.nextPtr, List.replicate request none⟩ := by
  cases hs : w.allocSched with
  | nil => simp [malloc, hs] at h; exact h.symm
  | cons a rest =>
      cases a with
      | true => simp [malloc, hs] at h; exact h.symm
      | false => simp [malloc, hs] at h

/-- The prefix read comes short exactly when the test `s != 4` of `RRI_Read` fires. -/
theorem comesShort_prefix_iff (w : World) :
    comesShort (SSL_read w 4) 4 ↔ (SSL_read w 4).ret ≠ 4 := by
  have hb := SSL_read_bound w 4
  have hb' : (SSL_read w 4).data.length ≤ 4 := hb
  rcases (SSL_read_pending w 4).2 with hr | ⟨hr, hd⟩
  · unfold comesShort
    rw [hr]
    omega
  · unfold comesShort
    rw [hr]
    constructor
    · intro _; omega
    · intro _; left; omega

/-- Unless the prefix is `FF FF FF FF`, the payload read comes short exactly when the test
`s != size` of `RRI_Read` fires. -/
theorem comesShort_payload_iff (w : World) (hS : declaredLength w ≠ 4294967295) :
    comesShort (payloadRead w) (declaredLength w) ↔ (payloadRead w).ret ≠ declaredSize w := by
  have hlt := declaredLength_lt w
  have hsz := declaredSize_eq w
  have hb : (payloadRead w).data.length ≤ (declaredSize w).toNat :=
    SSL_read_bound (allocStep w).2 (declaredSize w)
  have hp : (payloadRead w).ret = ((payloadRead w).data.length : Int) ∨
      ((payloadRead w).ret = -1 ∧ (payloadRead w).data = []) :=
    (SSL_read_pending (allocStep w).2 (declaredSize w)).2
  have hto : declaredSize w = (declaredLength w : Int) ∨
      (declaredSize w = (declaredLength w : Int) - 4294967296 ∧
        2147483648 ≤ declaredLength w) := by
    rw [hsz]; unfold toInt; omega
  unfold comesShort
  rcases hp with hr | ⟨hr, hd⟩
  · rw [hr]
    rcases hto with h | ⟨h, hbig⟩
    · rw [h] at hb ⊢
      omega
    · rw [h] at hb ⊢
      omega
  · rw [hr, hd]
    rcases hto with h | ⟨h, hbig⟩
    · rw [h]
      simp only [List.length_nil]
      omega
    · rw [h]
      simp only [List.length_nil]
      omega

/-- The store `buf[size] = 0` of `RRI_Read` falls outside the block only when `size` is `-1`:
the prefix is `FF FF FF FF` and the payload read was refused. -/
theorem store_outside_only_at_minus_one (w : World) (buf : Block)
    (ha : (allocStep w).1 = some buf) (h2 : (payloadRead w).ret = declaredSize w)
    (hs : Block.setByte { buf with cells := storeAt buf.cells ((payloadRead w).data.map some) }
      (declaredSize w) 0 = none) :
    declaredSize w = -1 ∧ declaredLength w = 4294967295 ∧ (payloadRead w).data = [] := by
  have hblock := malloc_block _ _ _ ha
  have hrange := toInt_range (declaredLength w)
  have hlt := declaredLength_lt w
  have hsz := declaredSize_eq w
  have hp : (payloadRead w).ret = ((payloadRead w).data.length : Int) ∨
      ((payloadRead w).ret = -1 ∧ (payloadRead w).data = []) :=
    (SSL_read_pending (allocStep w).2 (declaredSize w)).2
  by_cases hneg : declaredSize w < 0
  · have hd : (payloadRead w).data = [] := by
      show (SSL_read (allocStep w).2 (declaredSize w)).data = []
      rw [SSL_read_neg _ _ hneg]
    have hm1 : declaredSize w = -1 := by
      rcases hp with hr | ⟨hr, -⟩
      · rw [hr] at h2; omega
      · rw [hr] at h2; exact h2.symm
    refine ⟨hm1, ?_, hd⟩
    rw [hsz] at hm1
    unfold toInt at hm1
    omega
  · exfalso
    have hr2 : declaredSize w < 2147483648 := by rw [hsz]; exact hrange.2
    have hreq : (declaredSize w).toNat < toSizeT (toInt (declaredSize w + 2)) := by
      generalize declaredSize w = z at hneg hr2 ⊢
      unfold toSizeT toInt
      omega
    have hlen : (declaredSize w).toNat <
        (storeAt buf.cells ((payloadRead w).data.map some)).length := by
      rw [hblock]
      simp only [storeAt, List.length_append, List.length_map, List.length_drop,
        List.length_replicate]
      omega
    unfold Block.setByte at hs
    have hcond : 0 ≤ declaredSize w ∧ (declaredSize w).toNat <
        (storeAt buf.cells ((payloadRead w).data.map some)).length := ⟨by omega, hlen⟩
    simp only [hcond, and_self, ↓reduceIte] at hs
    cases hs

/-- From every state `RRI_Read` returns. -/
theorem RRI_Read_returns (w : World) : ∃ res w', RRI_Read w = some (res, w') := by
  rcases RRI_Read_cases w with ⟨-, hR⟩ | ⟨-, -, hR⟩ | ⟨b, -, -, -, hR⟩ |
      ⟨b, -, -, -, -, hR⟩ | ⟨b, b2, -, -, -, -, hR⟩ <;> exact ⟨_, _, hR⟩

/-- Outside the prefix `FF FF FF FF`, `RRI_Read` does what a reader of frames is to do: when
the read of the frame fails it returns `0` with `*result` at `NULL` and has not called
`SetError`; when it does not fail it returns the declared length with a block and has called
`SetError(0)` once. -/
theorem RRI_Read_outcome (w : World) (hS : declaredLength w ≠ 4294967295) :
    ∃ res w', RRI_Read w = some (res, w') ∧
      (ReadFailed w → res = ⟨0, none⟩ ∧ setErrorCalls (callsMade w w') = []) ∧
      (¬ ReadFailed w → res.ret = (declaredLength w : Int) ∧ res.result ≠ none ∧
        setErrorCalls (callsMade w w') = [0]) := by
  have hP := payloadRead_trace w
  have hpre := comesShort_prefix_iff w
  have hpay := comesShort_payload_iff w hS
  rcases RRI_Read_cases w with ⟨h1, hR⟩ | ⟨h1, ha, hR⟩ | ⟨buf, h1, ha, h2, hR⟩ |
      ⟨buf, h1, ha, h2, hs, hR⟩ | ⟨buf, buf2, h1, ha, h2, hs, hR⟩
  · refine ⟨_, _, hR, fun _ => ⟨rfl, ?_⟩, fun hn => absurd (Or.inl (hpre.2 h1)) hn⟩
    rw [callsMade_append w _ _ (SSL_read_world w 4).1]
    rfl
  · refine ⟨_, _, hR, fun _ => ⟨rfl, ?_⟩, fun hn => absurd (Or.inr (Or.inl ha)) hn⟩
    rw [callsMade_append w _ _ (allocStep_world w).1]
    rfl
  · refine ⟨_, _, hR, fun _ => ⟨rfl, ?_⟩,
      fun hn => absurd (Or.inr (Or.inr (hpay.2 h2))) hn⟩
    have ht : (free (payloadRead w).world
        { buf with cells := storeAt buf.cells ((payloadRead w).data.map some) }).trace =
        w.trace ++ [Event.sslRead 4 (SSL_read w 4).ret,
          Event.malloc (toSizeT (toInt (declaredSize w + 2))) ((allocStep w).1.map (·.ptr)),
          Event.sslRead (declaredSize w) (payloadRead w).ret, Event.free buf.ptr] := by
      show (payloadRead w).world.trace ++ [Event.free buf.ptr] = _
      rw [hP]; simp
    rw [callsMade_append w _ _ ht]
    rfl
  · exact absurd (store_outside_only_at_minus_one w buf ha h2 hs).2.1 hS
  · have hok : ¬ ReadFailed w := by
      rintro (hf | hf | hf)
      · exact hpre.1 hf h1
      · rw [ha] at hf; cases hf
      · exact hpay.1 hf h2
    have hnn : ¬ comesShort (payloadRead w) (declaredLength w) := fun hf => hpay.1 hf h2
    have hret : declaredSize w = (declaredLength w : Int) := by
      have hge : 0 ≤ declaredSize w := by
        unfold comesShort at hnn
        omega
      have hlt := declaredLength_lt w
      rw [declaredSize_eq] at hge ⊢
      unfold toInt at hge ⊢
      omega
    refine ⟨_, _, hR, fun hf => absurd hf hok, fun _ => ⟨hret, by simp, ?_⟩⟩
    have ht : (SetError (payloadRead w).world 0).trace =
        w.trace ++ [Event.sslRead 4 (SSL_read w 4).ret,
          Event.malloc (toSizeT (toInt (declaredSize w + 2))) ((allocStep w).1.map (·.ptr)),
          Event.sslRead (declaredSize w) (payloadRead w).ret, Event.setError 0] := by
      show (payloadRead w).world.trace ++ [Event.setError 0] = _
      rw [hP]; simp
    rw [callsMade_append w _ _ ht]
    rfl

/-- Outside the prefix `FF FF FF FF`, a payload read that comes short of the declared length
makes `RRI_Read` return `0` with `*result` at `NULL`, its last call being the `free` of the
block that its `malloc` returned. -/
theorem RRI_Read_short_payload (w : World) (buf : Block)
    (h1 : ¬ comesShort (SSL_read w 4) 4) (ha : (allocStep w).1 = some buf)
    (hS : declaredLength w ≠ 4294967295)
    (h2 : comesShort (payloadRead w) (declaredLength w)) :
    ∃ w', RRI_Read w = some (⟨0, none⟩, w') ∧
      callsMade w w' = [Event.sslRead 4 4,
        Event.malloc (toSizeT (toInt (declaredSize w + 2))) (some buf.ptr),
        Event.sslRead (declaredSize w) (payloadRead w).ret, Event.free buf.ptr] := by
  have hr1 : (SSL_read w 4).ret = 4 := by
    by_contra hne
    exact h1 ((comesShort_prefix_iff w).2 hne)
  have hr2 := (comesShort_payload_iff w hS).1 h2
  refine ⟨free (payloadRead w).world
    { buf with cells := storeAt buf.cells ((payloadRead w).data.map some) }, ?_, ?_⟩
  · rw [RRI_Read_eq]
    simp only [hr1, ne_eq, not_true_eq_false, ↓reduceIte, ha, hr2, not_false_eq_true]
  · apply callsMade_append
    show (payloadRead w).world.trace ++ [Event.free buf.ptr] = _
    rw [payloadRead_trace w, ha, hr1]
    simp

/-! ## C6, C13 and C15: the prefix `FF FF FF FF` -/

/-- What `RRI_Read` does on the prefix `FF FF FF FF`. -/
theorem RRI_Read_FFFFFFFF :
    RRI_Read (receive idle [255, 255, 255, 255]) =
      some (⟨-1, some ⟨0, [none]⟩⟩,
        { idle with nextPtr := 1,
                    trace := [Event.sslRead 4 4, Event.malloc 1 (some 0),
                              Event.sslRead (-1) (-1), Event.storeOutside 0 (-1),
                              Event.setError 0] }) := by decide

/-- What `RRI_Read` does on the prefix `FF FF FF FE`, the neighbour of `FF FF FF FF`: the
payload read is refused as well, the test `s != size` fires, the block is freed and the call
returns `0` with `*result` at `NULL`. -/
theorem RRI_Read_FFFFFFFE :
    RRI_Read (receive idle [255, 255, 255, 254]) =
      some (⟨0, none⟩,
        { idle with nextPtr := 1,
                    trace := [Event.sslRead 4 4, Event.malloc 0 (some 0),
                              Event.sslRead (-2) (-1), Event.free 0] }) := by decide

/-- What `RRI_Read` does on the frame `00 00 00 00`: it returns `0`, with a block whose first
byte is the terminating zero. -/
theorem RRI_Read_zero_length_frame :
    ¬ ReadFailed (receive idle [0, 0, 0, 0]) ∧
      RRI_Read (receive idle [0, 0, 0, 0]) =
        some (⟨0, some ⟨0, [some 0, none]⟩⟩,
          { idle with nextPtr := 1,
                      trace := [Event.sslRead 4 4, Event.malloc 2 (some 0),
                                Event.sslRead 0 0, Event.setError 0] }) := by
  refine ⟨?_, by decide⟩
  rintro (h | h | h)
  · revert h; unfold comesShort; decide
  · revert h; decide
  · revert h; unfold comesShort; decide

/-- C6, failing input: on the prefix `FF FF FF FF`, which declares `2^32 - 1` bytes, the
payload read is refused and obtains no byte, yet `RRI_Read` does not fail: it stores a zero
before the block, does not free the block, hands it back in `*result` and returns `-1`. -/
theorem C6_short_payload_missed_for_prefix_FFFFFFFF :
    declaredLength (receive idle [255, 255, 255, 255]) = 4294967295 ∧
      (payloadRead (receive idle [255, 255, 255, 255])).data = [] ∧
      comesShort (payloadRead (receive idle [255, 255, 255, 255]))
        (declaredLength (receive idle [255, 255, 255, 255])) ∧
      RRI_Read (receive idle [255, 255, 255, 255]) =
        some (⟨-1, some ⟨0, [none]⟩⟩,
          { idle with nextPtr := 1,
                      trace := [Event.sslRead 4 4, Event.malloc 1 (some 0),
                                Event.sslRead (-1) (-1), Event.storeOutside 0 (-1),
                                Event.setError 0] }) := by
  refine ⟨by decide, by decide, Or.inl (by decide), by decide⟩

/-- C13, failing input: on the prefix `FF FF FF FF` the read of the frame fails, the payload
read being refused, and `RRI_Read` has called `SetError(0)` all the same. -/
theorem C13_SetError_after_refused_read_FFFFFFFF :
    ReadFailed (receive idle [255, 255, 255, 255]) ∧
      (payloadRead (receive idle [255, 255, 255, 255])).ret = -1 ∧
      ∃ res w', RRI_Read (receive idle [255, 255, 255, 255]) = some (res, w') ∧
        setErrorCalls (callsMade (receive idle [255, 255, 255, 255]) w') = [0] := by
  refine ⟨Or.inr (Or.inr (Or.inl (by decide))), by decide, _, _, RRI_Read_FFFFFFFF, ?_⟩
  decide

/-- C15, failing input: on the prefix `FF FF FF FF` the read of the frame fails, the payload
read being refused, and `RRI_Read` returns `-1`, not `0`, with `*result` not `NULL`. -/
theorem C15_result_not_null_after_refused_read_FFFFFFFF :
    ReadFailed (receive idle [255, 255, 255, 255]) ∧
      ∃ res w', RRI_Read (receive idle [255, 255, 255, 255]) = some (res, w') ∧
        res.result ≠ none ∧ res.ret = -1 := by
  refine ⟨Or.inr (Or.inr (Or.inl (by decide))), _, _, RRI_Read_FFFFFFFF, ?_, rfl⟩
  simp

/-! ## C14 -/

theorem grantsAll_permits (sched : List IOStep) (n : Nat) (h : grantsAll sched = true)
    (hn : n ≤ 2147483647) : permits sched n = true := by
  cases sched with
  | nil => rfl
  | cons st rest =>
      cases st with
      | upTo cap =>
          simp only [grantsAll, List.all_cons, Bool.and_eq_true, decide_eq_true_eq] at h
          simp only [permits, decide_eq_true_eq]
          omega
      | fail => simp [grantsAll] at h

theorem grantsAll_tail (sched : List IOStep) (h : grantsAll sched = true) :
    grantsAll sched.tail = true := by
  cases sched with
  | nil => rfl
  | cons st rest =>
      simp only [grantsAll, List.all_cons, Bool.and_eq_true] at h
      exact h.2

theorem allocatesAll_allocates (sched : List Bool) (h : allocatesAll sched = true) :
    allocates sched = true ∧ allocatesAll sched.tail = true := by
  cases sched with
  | nil => exact ⟨rfl, rfl⟩
  | cons b rest =>
      simp only [allocatesAll, List.all_cons, Bool.and_eq_true] at h
      obtain ⟨hb, hrest⟩ := h
      subst hb
      exact ⟨rfl, hrest⟩

theorem RRI_Send_full_state (w : World) (order : List Byte) (len k : Nat)
    (hlen : strlen order = some len) (hk : toInt len = (k : Int))
    (hw1 : permits w.writeSched 4 = true) (hw2 : permits w.writeSched.tail k = true) :
    ∃ w', RRI_Send w order = some ((k : Int), w') ∧
      w'.outbound = w.outbound ++ htonl k ++ order.take k ∧
      w'.writeSched = w.writeSched.tail.tail :=
  ⟨_, RRI_Send_full w order len k hlen hk hw1 hw2, rfl, rfl⟩

theorem RRI_Read_full_state (w : World) (L : Nat) (payload rest : List Byte)
    (hin : w.inbound = htonl L ++ (payload ++ rest)) (hL : L ≤ 2147483647)
    (hp : payload.length = L)
    (hr1 : permits w.readSched 4 = true) (hr2 : permits w.readSched.tail L = true)
    (ha : allocates w.allocSched = true) :
    ∃ w', RRI_Read w =
        some (⟨(L : Int), some ⟨w.nextPtr,
          (storeAt (List.replicate (toSizeT (toInt ((L : Int) + 2))) none)
            (payload.map some)).set L (some 0)⟩⟩, w') ∧
      w'.inbound = rest ∧ w'.readSched = w.readSched.tail.tail ∧
      w'.allocSched = w.allocSched.tail :=
  ⟨_, RRI_Read_full w L payload rest hin hL hp hr1 hr2 ha, rfl, rfl, rfl⟩

theorem sendAll_frames (ss : List (List Byte)) :
    ∀ w : World, (∀ s ∈ ss, (∀ b ∈ s, b ≠ 0) ∧ s.length ≤ 2147483647) →
      grantsAll w.writeSched = true →
      ∃ w', sendAll w (ss.map fun s => cstring s []) = some w' ∧
        w'.outbound = w.outbound ++ frames ss := by
  induction ss with
  | nil =>
      intro w _ _
      exact ⟨w, rfl, by simp [frames]⟩
  | cons s rest ih =>
      intro w hss hw
      obtain ⟨hs, hlen⟩ := hss s (List.mem_cons_self _ _)
      have hstr : strlen (cstring s []) = some s.length := strlen_append_zero s [] hs
      have hto : toInt (s.length : Int) = (s.length : Int) :=
        toInt_of_lt _ (by omega) (by omega)
      obtain ⟨w1, hsend, hout1, hsched1⟩ :=
        RRI_Send_full_state w (cstring s []) s.length s.length hstr hto
          (grantsAll_permits _ 4 hw (by decide))
          (grantsAll_permits _ _ (grantsAll_tail _ hw) hlen)
      rw [take_cstring] at hout1
      obtain ⟨w', hw', hout⟩ := ih w1 (fun t ht => hss t (List.mem_cons_of_mem _ ht))
        (by rw [hsched1]; exact grantsAll_tail _ (grantsAll_tail _ hw))
      refine ⟨w', ?_, ?_⟩
      · simp only [List.map_cons, sendAll, hsend]
        exact hw'
      · rw [hout, hout1]
        simp [frames]

theorem returns_of_block (s : List Byte) (hlen : s.length ≤ 2147483647) (ptr : Nat) :
    Returns ⟨(s.length : Int), some ⟨ptr,
      (storeAt (List.replicate (toSizeT (toInt ((s.length : Int) + 2))) none)
        (s.map some)).set s.length (some 0)⟩⟩ s := by
  refine ⟨rfl, _, rfl, ?_, ?_⟩
  · have := storeAt_set_take (List.replicate (toSizeT (toInt ((s.length : Int) + 2))) none)
      (s.map some) (some 0)
    simpa using this
  · have := storeAt_set_get (List.replicate (toSizeT (toInt ((s.length : Int) + 2))) none)
      (s.map some) (some 0) (by simpa using request_gt s.length hlen)
    simpa using this

theorem readAll_frames (ss : List (List Byte)) :
    ∀ (p : World) (rest : List Byte),
      (∀ s ∈ ss, (∀ b ∈ s, b ≠ 0) ∧ s.length ≤ 2147483647) →
      p.inbound = frames ss ++ rest → grantsAll p.readSched = true →
      allocatesAll p.allocSched = true →
      ∃ results p', readAll p ss.length = some (results, p') ∧
        List.Forall₂ Returns results ss ∧ p'.inbound = rest := by
  induction ss with
  | nil =>
      intro p rest _ hin _ _
      exact ⟨[], p, rfl, List.Forall₂.nil, by simpa [frames] using hin⟩
  | cons s tl ih =>
      intro p rest hss hin hr ha
      obtain ⟨-, hlen⟩ := hss s (List.mem_cons_self _ _)
      have hin' : p.inbound = htonl s.length ++ (s ++ (frames tl ++ rest)) := by
        rw [hin]; simp [frames]
      obtain ⟨p1, hread, hin1, hsched1, halloc1⟩ :=
        RRI_Read_full_state p s.length s (frames tl ++ rest) hin' hlen rfl
          (grantsAll_permits _ 4 hr (by decide))
          (grantsAll_permits _ _ (grantsAll_tail _ hr) hlen)
          (allocatesAll_allocates _ ha).1
      obtain ⟨results, p', hrd, hF, hrest⟩ := ih p1 rest
        (fun t ht => hss t (List.mem_cons_of_mem _ ht)) hin1
        (by rw [hsched1]; exact grantsAll_tail _ (grantsAll_tail _ hr))
        (by rw [halloc1]; exact (allocatesAll_allocates _ ha).2)
      refine ⟨_ :: results, p', ?_, List.Forall₂.cons (returns_of_block s hlen p.nextPtr) hF,
        hrest⟩
      simp only [List.length_cons, readAll, hread, hrd]

/-- A call of `RRI_Read` that hands a block back has taken exactly `4 + ret` bytes from the
head of the stream, `ret ≥ 0` being the count it returns, and the bytes after them are still
pending; the one other case is the prefix `FF FF FF FF`, where it returns `-1` and has taken
the four bytes of the prefix. -/
theorem RRI_Read_consumes (q : World) (ret : Int) (buf : Block) (q' : World)
    (h : RRI_Read q = some (⟨ret, some buf⟩, q')) :
    (0 ≤ ret ∨ (ret = -1 ∧ declaredLength q = 4294967295)) ∧
      ∃ frame, frame.length = 4 + ret.toNat ∧ q.inbound = frame ++ q'.inbound := by
  have hq : q.inbound = (SSL_read q 4).data ++ (SSL_read q 4).world.inbound :=
    (SSL_read_pending q 4).1
  have ha : (allocStep q).2.inbound = (SSL_read q 4).world.inbound := (allocStep_world q).2
  obtain ⟨hsplit2, hret2⟩ := SSL_read_pending (allocStep q).2 (declaredSize q)
  rw [ha] at hsplit2
  rcases RRI_Read_cases q with ⟨-, hR⟩ | ⟨-, -, hR⟩ | ⟨b, -, -, -, hR⟩ |
      ⟨b, h1, hal, h2, hs, hR⟩ | ⟨b, b2, h1, -, h2, hs, hR⟩
  · rw [hR] at h; cases h
  · rw [hR] at h; cases h
  · rw [hR] at h; cases h
  · rw [hR] at h
    cases h
    obtain ⟨hm1, hlen, hd⟩ := store_outside_only_at_minus_one q b hal h2 hs
    obtain ⟨-, hl1, -⟩ := prefix_consumed q h1
    refine ⟨Or.inr ⟨hm1, hlen⟩, (SSL_read q 4).data, ?_, ?_⟩
    · rw [hl1, hm1]; rfl
    · show q.inbound = _ ++ (payloadRead q).world.inbound
      have hd' : (SSL_read (allocStep q).2 (declaredSize q)).data = [] := hd
      rw [hd', List.nil_append] at hsplit2
      rw [hq]
      congr 1
  · rw [hR] at h
    cases h
    have h0 : 0 ≤ declaredSize q := by
      unfold Block.setByte at hs
      split at hs
      · rename_i hc; exact hc.1
      · cases hs
    obtain ⟨-, hl1, -⟩ := prefix_consumed q h1
    have hl2 : ((payloadRead q).data.length : Int) = declaredSize q := by
      rcases hret2 with hr | ⟨hr, -⟩
      · rw [← h2]; exact hr.symm
      · have : (payloadRead q).ret = -1 := hr
        omega
    refine ⟨Or.inl h0, (SSL_read q 4).data ++ (payloadRead q).data, ?_, ?_⟩
    · rw [List.length_append, hl1]; omega
    · show q.inbound = _ ++ (payloadRead q).world.inbound
      rw [List.append_assoc]
      rw [hq]
      congr 1

theorem sendAll_cons_some (w : World) (order : List Byte) (rest : List (List Byte))
    (r : Int × World) (h : RRI_Send w order = some r) :
    sendAll w (order :: rest) = sendAll r.2 rest := by
  simp only [sendAll, h]

/-- C14, counterexample: the single order of `2^32` bytes `'a'` is sent as an empty frame, and
the one `RRI_Read` that follows returns the length `0`, not the order sent. -/
theorem C14_back_to_back_fails_for_4G_order :
    ¬ BackToBack idle idle [letters 4294967296] := by
  rintro ⟨w', results, p', hS, hR, hF⟩
  have hsend := RRI_Send_wraps (letters 4294967296) [] (letters_nonzero _) 1 0
    (by rw [letters_length]) (by decide)
  have hz : htonl 0 ++ List.take 0 (letters 4294967296) = [0, 0, 0, 0] := by
    rw [List.take_zero]; rfl
  rw [hz] at hsend
  have hS' : sendAll idle [cstring (letters 4294967296) []] = some w' := hS
  rw [sendAll_cons_some _ _ _ _ hsend] at hS'
  have hw' : w' = { idle with outbound := [0, 0, 0, 0],
                              trace := [Event.sslWrite 4 4, Event.sslWrite 0 0] } := by
    cases hS'; rfl
  subst hw'
  have hread : (readAll (receive idle (sentBy idle
      { idle with outbound := [0, 0, 0, 0],
                  trace := [Event.sslWrite 4 4, Event.sslWrite 0 0] })) 1).map
        (fun r => r.1.map (·.ret)) = some [0] := by decide
  rw [List.length_singleton] at hR
  rw [hR] at hread
  cases hF with
  | cons hhead htail =>
      cases htail
      have h0 := hhead.1
      rw [letters_length] at h0
      simp at hread
      omega

/-- C14, amended: a call of `RRI_Read` that hands a block back with a length `ret ≥ 0` has
taken exactly `4 + ret` bytes from the stream and left the bytes after them pending (the one
call that hands a block back without such a length is the one on the prefix `FF FF FF FF`,
which returns `-1` and has taken the four prefix bytes); so for every list of
orders free of zero bytes and of at most `2^31 - 1` bytes each, sent back-to-back with
`RRI_Send` (every write and read granted in full, every allocation succeeding), as many
consecutive calls of `RRI_Read` on the other end return those orders one per call, in the
order sent. -/
theorem C14_back_to_back (w p : World) (ss : List (List Byte))
    (hss : ∀ s ∈ ss, (∀ b ∈ s, b ≠ 0) ∧ s.length ≤ 2147483647)
    (hw : grantsAll w.writeSched = true) (hp : p.inbound = [])
    (hr : grantsAll p.readSched = true) (ha : allocatesAll p.allocSched = true) :
    (∀ (q : World) (ret : Int) (buf : Block) (q' : World),
        RRI_Read q = some (⟨ret, some buf⟩, q') →
        (0 ≤ ret ∨ (ret = -1 ∧ declaredLength q = 4294967295)) ∧
          ∃ frame, frame.length = 4 + ret.toNat ∧ q.inbound = frame ++ q'.inbound) ∧
      BackToBack w p ss := by
  refine ⟨RRI_Read_consumes, ?_⟩
  obtain ⟨w', hsend, hout⟩ := sendAll_frames ss w hss hw
  have hin : (receive p (sentBy w w')).inbound = frames ss ++ [] := by
    simp [receive, hp, sentBy, hout]
  obtain ⟨results, p', hread, hF, -⟩ :=
    readAll_frames ss (receive p (sentBy w w')) [] hss hin hr ha
  exact ⟨w', results, p', hsend, hread, hF⟩

/-- C14, witness: the orders `"hello"`, the empty order and `"a"`, sent back-to-back. -/
theorem C14_back_to_back_three_orders :
    (∀ (q : World) (ret : Int) (buf : Block) (q' : World),
        RRI_Read q = some (⟨ret, some buf⟩, q') →
        (0 ≤ ret ∨ (ret = -1 ∧ declaredLength q = 4294967295)) ∧
          ∃ frame, frame.length = 4 + ret.toNat ∧ q.inbound = frame ++ q'.inbound) ∧
      BackToBack idle idle [hello, [], [97]] :=
  C14_back_to_back idle idle [hello, [], [97]] (by simp [hello]) (by decide) rfl
    (by decide) (by decide)

/-! ## C16 -/

theorem SendSucceeds_iff (w : World) (order : List Byte) (len : Nat)
    (hlen : strlen order = some len) :
    SendSucceeds w order ↔
      ((prefixWrite w len).1 = 4 ∧ (payloadWrite w order len).1 = toInt len) := by
  constructor
  · rintro ⟨len', hlen', h1, h2⟩
    rw [hlen] at hlen'
    cases hlen'
    exact ⟨h1, h2⟩
  · rintro ⟨h1, h2⟩
    exact ⟨len, hlen, h1, h2⟩

/-- C16, counterexample: the order of `2^32` bytes `'a'` is not empty and both of its writes
return the count asked, yet `RRI_Send` returns `0`. -/
theorem C16_zero_return_for_4G_order :
    strlen (cstring (letters 4294967296) []) = some 4294967296 ∧
      SendSucceeds idle (cstring (letters 4294967296) []) ∧
      (RRI_Send idle (cstring (letters 4294967296) [])).map (·.1) = some 0 ∧
      ¬ SendReturnProfile idle (cstring (letters 4294967296) []) 4294967296 := by
  have hstr : strlen (cstring (letters 4294967296) []) = some (letters 4294967296).length :=
    strlen_append_zero _ _ (letters_nonzero _)
  have hto : toInt ((letters 4294967296).length : Int) = ((0 : Nat) : Int) := by
    rw [letters_length]; decide
  have hsucc : SendSucceeds idle (cstring (letters 4294967296) []) :=
    SendSucceeds_of_permits idle _ _ 0 hstr hto rfl rfl
  have hsend := RRI_Send_wraps (letters 4294967296) [] (letters_nonzero _) 1 0
    (by rw [letters_length]) (by decide)
  rw [letters_length] at hstr
  refine ⟨hstr, hsucc, by rw [hsend]; rfl, ?_⟩
  rintro ⟨r, w', hS, hiff, -⟩
  rw [hsend] at hS
  have hr : r = 0 := by cases hS; rfl
  rcases hiff.1 hr with hn | hz
  · exact hn hsucc
  · omega

/-- C16, amended: for every order of at most `2^31 - 1` bytes and every outcome of the two
writes, `RRI_Send` returns `0` if and only if a write did not return the count asked or the
order is empty, and otherwise returns the byte length of the order, which is positive; and
there are a successful send (of the empty order) and a failed one that both return `0`. -/
theorem C16_return_profile (w : World) (order : List Byte) (len : Nat)
    (hlen : strlen order = some len) (hL : len ≤ 2147483647) :
    SendReturnProfile w order len ∧
      ∃ w1 w2 order2 w1' w2', SendSucceeds w1 (cstring [] []) ∧
        RRI_Send w1 (cstring [] []) = some (0, w1') ∧
        ¬ SendSucceeds w2 order2 ∧ RRI_Send w2 order2 = some (0, w2') := by
  have hto : toInt (len : Int) = (len : Int) := toInt_of_lt _ (by omega) (by omega)
  have hiff := SendSucceeds_iff w order len hlen
  constructor
  · by_cases h1 : (prefixWrite w len).1 = 4
    · by_cases h2 : (payloadWrite w order len).1 = toInt len
      · refine ⟨(payloadWrite w order len).1, (payloadWrite w order len).2, ?_, ?_, ?_⟩
        · rw [RRI_Send_eq w order len hlen]
          simp only [h1, h2, ne_eq, not_true_eq_false, ↓reduceIte]
        · rw [h2, hto]
          constructor
          · intro h0; right; omega
          · rintro (hn | hz)
            · exact absurd (hiff.2 ⟨h1, h2⟩) hn
            · omega
        · rw [h2, hto]
          intro hne
          exact ⟨rfl, by omega⟩
      · refine ⟨0, (payloadWrite w order len).2, ?_, ?_, fun h => absurd rfl h⟩
        · rw [RRI_Send_eq w order len hlen]
          simp only [h1, h2, ne_eq, not_true_eq_false, not_false_eq_true, ↓reduceIte]
        · exact ⟨fun _ => Or.inl fun hs => h2 (hiff.1 hs).2, fun _ => rfl⟩
    · refine ⟨0, (prefixWrite w len).2, ?_, ?_, fun h => absurd rfl h⟩
      · rw [RRI_Send_eq w order len hlen]
        simp only [h1, ne_eq, not_false_eq_true, ↓reduceIte]
      · exact ⟨fun _ => Or.inl fun hs => h1 (hiff.1 hs).1, fun _ => rfl⟩
  · refine ⟨idle, { idle with writeSched := [IOStep.fail] }, cstring hello [], _, _,
      ⟨0, by decide, by decide, by decide⟩, (by decide : RRI_Send idle (cstring [] []) =
        some (0, { idle with outbound := [0, 0, 0, 0],
                             trace := [Event.sslWrite 4 4, Event.sslWrite 0 0] })), ?_,
      (by decide : RRI_Send { idle with writeSched := [IOStep.fail] } (cstring hello []) =
        some (0, { idle with trace := [Event.sslWrite 4 (-1)] }))⟩
    intro hs
    have := ((SendSucceeds_iff _ (cstring hello []) 5 (by decide)).1 hs).1
    revert this
    decide

/-- C16, witness: the order `"hello"`, sent with no limit on any call, returns `5`. -/
theorem C16_return_profile_hello :
    SendReturnProfile idle (cstring hello []) 5 ∧
      ∃ w1 w2 order2 w1' w2', SendSucceeds w1 (cstring [] []) ∧
        RRI_Send w1 (cstring [] []) = some (0, w1') ∧
        ¬ SendSucceeds w2 order2 ∧ RRI_Send w2 order2 = some (0, w2') :=
  C16_return_profile idle (cstring hello []) 5 (by decide) (by decide)

/-! ## C17 -/

/-- A call of `SSL_write` reads the object it is given only up to the count asked. -/
theorem SSL_write_congr (w : World) (mem mem' : List Byte) (num : Int)
    (h : ∀ k, k ≤ num.toNat → mem.take k = mem'.take k) :
    SSL_write w mem num = SSL_write w mem' num := by
  unfold SSL_write
  split
  · rfl
  · rcases hg : grant w.writeSched num.toNat with ⟨_ | k, rest⟩
    · rfl
    · have hk := h k (grant_le _ _ _ _ hg)
      simp only [hk]

theorem SSL_write_sent (w : World) (mem : List Byte) (num : Int) :
    ∃ k, k ≤ num.toNat ∧ (SSL_write w mem num).2.outbound = w.outbound ++ mem.take k := by
  unfold SSL_write
  split
  · exact ⟨0, Nat.zero_le _, by simp⟩
  · rcases hg : grant w.writeSched num.toNat with ⟨_ | k, rest⟩
    · exact ⟨0, Nat.zero_le _, by simp⟩
    · exact ⟨k, grant_le _ _ _ _ hg, rfl⟩

theorem toInt_toNat_le (len : Nat) : (toInt (len : Int)).toNat ≤ len := by
  unfold toInt; omega

/-- What a call of `RRI_Send` has put on the wire: first, bytes of the prefix of `len`, the
offset of the first zero byte of the order, and after the four of them at most the bytes of
the order that come before that zero byte. -/
theorem RRI_Send_sent (w : World) (order : List Byte) (len : Nat)
    (hlen : strlen order = some len) (r : Int) (w' : World)
    (h : RRI_Send w order = some (r, w')) :
    (sentBy w w').take 4 <+: htonl len ∧ (sentBy w w').drop 4 <+: order.take len := by
  obtain ⟨-, pre, hpre, hout, hret⟩ := SSL_write_world w (htonl (toUInt32 (toInt len))) 4
  have hprelen : pre.length ≤ 4 := by
    have := hpre.length_le
    simpa [htonl_length] using this
  rw [prefix_bytes] at hpre
  rw [RRI_Send_eq w order len hlen] at h
  by_cases h1 : (prefixWrite w len).1 = 4
  · have h1' : (SSL_write w (htonl (toUInt32 (toInt len))) 4).1 = 4 := h1
    have hfull : pre.length = 4 := by
      rcases hret with hr | ⟨hr, -⟩
      · rw [h1'] at hr; omega
      · rw [h1'] at hr; omega
    obtain ⟨k, hk, hout2⟩ := SSL_write_sent (prefixWrite w len).2 order (toInt len)
    have hw' : w' = (payloadWrite w order len).2 := by
      by_cases h2 : (payloadWrite w order len).1 = toInt len
      · simp only [h1, h2, ne_eq, not_true_eq_false, ↓reduceIte, Option.some.injEq,
          Prod.mk.injEq] at h
        exact h.2.symm
      · simp only [h1, h2, ne_eq, not_true_eq_false, not_false_eq_true, ↓reduceIte,
          Option.some.injEq, Prod.mk.injEq] at h
        exact h.2.symm
    have hsent : sentBy w w' = pre ++ order.take k := by
      apply sentBy_append
      rw [hw']
      show (SSL_write (prefixWrite w len).2 order (toInt len)).2.outbound = _
      rw [hout2]
      show (SSL_write w (htonl (toUInt32 (toInt len))) 4).2.outbound ++ _ = _
      rw [hout, List.append_assoc]
    rw [hsent, List.drop_left' hfull, List.take_left' hfull]
    have hkl : k ≤ len := le_trans hk (toInt_toNat_le len)
    have : order.take k = (order.take len).take k := by
      rw [List.take_take, Nat.min_eq_left hkl]
    rw [this]
    exact ⟨hpre, List.take_prefix _ _⟩
  · simp only [h1, ne_eq, not_false_eq_true, ↓reduceIte, Option.some.injEq,
      Prod.mk.injEq] at h
    have hsent : sentBy w w' = pre := by
      apply sentBy_append
      rw [← h.2]
      exact hout
    rw [hsent, List.drop_eq_nil_of_le hprelen, List.take_of_length_le hprelen]
    exact ⟨hpre, List.nil_prefix⟩

/-- C17, counterexample: the frame with the prefix `FF FF FF FE` and a payload of `2^32 - 2`
bytes that starts with a zero byte is not accepted by `RRI_Read`, which returns `0` and leaves
`*result` at `NULL`. -/
theorem C17_read_rejects_zero_frame_FFFFFFFE :
    (∃ w', RRI_Read (receive idle ([255, 255, 255, 254] ++ (0 :: letters 4294967293))) =
        some (⟨0, none⟩, w')) ∧
      ¬ ZeroFrameAsymmetry (receive idle ([255, 255, 255, 254] ++ (0 :: letters 4294967293)))
          4294967294 (0 :: letters 4294967293) := by
  have hex := RRI_Read_negative
    (receive idle ([255, 255, 255, 254] ++ (0 :: letters 4294967293)))
    255 255 255 254 (0 :: letters 4294967293) (by simp [receive, idle]) rfl (by decide)
    (by decide)
  refine ⟨hex, ?_⟩
  rintro ⟨⟨buf, w', hR, -, -⟩, -⟩
  obtain ⟨w0, hw0⟩ := hex
  rw [hw0] at hR
  cases hR

/-- C17, amended: `RRI_Send` measures the order with `strlen`. For every order buffer, the
declared length and the payload written stop at the first zero byte: what lies after that byte
plays no part in the call, the four bytes of the prefix are those of its offset `len`, and the
payload on the wire is made of bytes that come before it, so it is free of zero bytes; hence a
frame whose payload holds a zero byte is put on the wire by no call of `RRI_Send`, while
`RRI_Read` accepts such a frame and returns its payload in full when the declared length is at
most `2^31 - 1`. -/
theorem C17_strlen_stops_at_zero (w : World) (order : List Byte) (len : Nat)
    (hlen : strlen order = some len)
    (p : World) (L : Nat) (payload rest : List Byte) (hz : (0 : Byte) ∈ payload)
    (hin : p.inbound = htonl L ++ (payload ++ rest)) (hL : L ≤ 2147483647)
    (hp : payload.length = L)
    (hr1 : permits p.readSched 4 = true) (hr2 : permits p.readSched.tail L = true)
    (ha : allocates p.allocSched = true) :
    RRI_Send w order = RRI_Send w (cstring (order.take len) []) ∧
      (∀ r w', RRI_Send w order = some (r, w') →
        (sentBy w w').take 4 <+: htonl len ∧
        (4 ≤ (sentBy w w').length → (sentBy w w').take 4 = htonl len) ∧
        (sentBy w w').drop 4 <+: order.take len ∧ ∀ b ∈ (sentBy w w').drop 4, b ≠ 0) ∧
      ZeroFrameAsymmetry p L payload := by
  have hnz := strlen_take_nonzero order len hlen
  have hll := strlen_lt_length order len hlen
  have htl : (order.take len).length = len := by
    rw [List.length_take]; omega
  have hlen' : strlen (cstring (order.take len) []) = some len := by
    have := strlen_append_zero (order.take len) [] hnz
    rwa [htl] at this
  refine ⟨?_, ?_, ?_, ?_⟩
  · rw [RRI_Send_eq w order len hlen, RRI_Send_eq w _ len hlen']
    have hc : payloadWrite w order len = payloadWrite w (cstring (order.take len) []) len := by
      unfold payloadWrite
      apply SSL_write_congr
      intro k hk
      have hkl : k ≤ len := le_trans hk (toInt_toNat_le len)
      unfold cstring
      rw [List.take_append_of_le_length (by omega), List.take_take, Nat.min_eq_left hkl]
    rw [hc]
  · intro r w' hS
    obtain ⟨hhead, hpre⟩ := RRI_Send_sent w order len hlen r w' hS
    refine ⟨hhead, fun h4 => ?_, hpre, fun b hb => hnz b (hpre.subset hb)⟩
    apply hhead.eq_of_length
    rw [List.length_take, htonl_length]
    omega
  · have hread := RRI_Read_full p L payload rest hin hL hp hr1 hr2 ha
    subst hp
    exact ⟨_, _, hread, by
      simpa using storeAt_set_take
        (List.replicate (toSizeT (toInt ((payload.length : Int) + 2))) none)
        (payload.map some) (some 0), by
      simpa using storeAt_set_get
        (List.replicate (toSizeT (toInt ((payload.length : Int) + 2))) none)
        (payload.map some) (some 0) (by simpa using request_gt payload.length hL)⟩
  · intro w2 order2 r w' hS heq
    cases hl2 : strlen order2 with
    | none => simp [RRI_Send, hl2] at hS
    | some len2 =>
        have hpre := (RRI_Send_sent w2 order2 len2 hl2 r w' hS).2
        have hnz2 := strlen_take_nonzero order2 len2 hl2
        rw [heq, List.drop_left' (htonl_length L)] at hpre
        exact hnz2 0 (hpre.subset hz) rfl

/-- C17, witness: the buffer `'a' 00 'b'` is sent as the order `'a'`, and the frame
`00 00 00 03 'a' 00 'b'` is read in full but sent by no call. -/
theorem C17_strlen_stops_at_zero_a0b :
    RRI_Send idle [97, 0, 98] = RRI_Send idle (cstring (([97, 0, 98] : List Byte).take 1) []) ∧
      (∀ r w', RRI_Send idle [97, 0, 98] = some (r, w') →
        (sentBy idle w').take 4 <+: htonl 1 ∧
        (4 ≤ (sentBy idle w').length → (sentBy idle w').take 4 = htonl 1) ∧
        (sentBy idle w').drop 4 <+: ([97, 0, 98] : List Byte).take 1 ∧
          ∀ b ∈ (sentBy idle w').drop 4, b ≠ 0) ∧
      ZeroFrameAsymmetry (receive idle [0, 0, 0, 3, 97, 0, 98]) 3 [97, 0, 98] :=
  C17_strlen_stops_at_zero idle [97, 0, 98] 1 (by decide)
    (receive idle [0, 0, 0, 3, 97, 0, 98]) 3 [97, 0, 98] [] (by decide) (by decide)
    (by decide) rfl (by decide) (by decide) (by decide)

end RRI
